import Mathlib

/-!
Verification development for the LuaX template preprocessor (lexer.rs and
preprocessor.rs). The lexer and preprocessor are embedded shallowly: the
character cursor of the Rust lexer (src, chars, current, byte position) is
represented by the list of characters not yet consumed, and text-bearing
tokens hold the consumed characters directly, which is exactly the substring
the Rust token borrows.

The tokens module of the repository is missing from the sources; the Token
type and its textual rendering are modelled from the spec (section 3, token
model with textual re-rendering; delimiters retained for faithful
re-emission) and are pinned by the unit tests of the repository.
-/

set_option maxHeartbeats 1600000
set_option maxRecDepth 100000

namespace Luax

/-- Character constants, used instead of the corresponding character
literals. -/
def lb : Char := Char.ofNat 123

/-- Closing brace character. -/
def rb : Char := Char.ofNat 125

/-- Single quote character. -/
def sq : Char := Char.ofNat 39

/-- String type of a string literal token, from tokens.rs usage: selects
escape-aware vs nesting-close scanning, retained for re-emission. -/
inductive StringType where
  | Single
  | Double
  | DoubleBracket
deriving DecidableEq


/-- Modelled from the spec: the Token type of the missing tokens module.
Fixed-kind variants carry no payload; Identifier, Number and Str carry the
consumed characters (the borrowed substring of the input). -/
inductive Token where
  | Plus | Star | Hat | Percent | Amp | Pipe | Hash
  | OpenParen | CloseParen | CloseBrace | CloseBracket
  | Semicolon | Comma | Bang
  | Lt | Le | LtLt | OpenClosingTag
  | Gt | Ge | GtGt
  | OpenBrace | LuaStart | LuaEnd
  | Eq | EqEq | Tilde | TildeEq
  | Slash | SlashSlash | Colon | ColonColon
  | Minus | Dot | DotDot | DotDotDot
  | OpenBracket
  | Number (s : List Char)
  | Str (s : List Char) (ty : StringType)
  | Identifier (s : List Char)
  | And | Break | Do | Else | ElseIf | End | FalseKw | For | Function
  | Goto | If | In | Local | Nil | Not | Or | Repeat | Return | Then
  | TrueKw | Until | While
  | Eof
  | Whitespace
  | HtmlTextChar (c : Char)

/-- Numeric code of a string type, for the equality test below. -/
def StringType.enc : StringType → Nat
  | .Single => 0
  | .Double => 1
  | .DoubleBracket => 2

/-- Left inverse of the string-type code. -/
def StringType.dec : Nat → StringType
  | 0 => .Single
  | 1 => .Double
  | _ => .DoubleBracket

theorem StringType.dec_enc (ty : StringType) :
    StringType.dec (StringType.enc ty) = ty := by
  cases ty <;> rfl

/-- Injective encoding of tokens into a product of decidable-equality
types; the derived equality test on the 65-constructor type itself is
avoided only for the size of its term. -/
def Token.encode : Token → Nat × List Char × Nat
  | .Plus => (0, [], 0)
  | .Star => (1, [], 0)
  | .Hat => (2, [], 0)
  | .Percent => (3, [], 0)
  | .Amp => (4, [], 0)
  | .Pipe => (5, [], 0)
  | .Hash => (6, [], 0)
  | .OpenParen => (7, [], 0)
  | .CloseParen => (8, [], 0)
  | .CloseBrace => (9, [], 0)
  | .CloseBracket => (10, [], 0)
  | .Semicolon => (11, [], 0)
  | .Comma => (12, [], 0)
  | .Bang => (13, [], 0)
  | .Lt => (14, [], 0)
  | .Le => (15, [], 0)
  | .LtLt => (16, [], 0)
  | .OpenClosingTag => (17, [], 0)
  | .Gt => (18, [], 0)
  | .Ge => (19, [], 0)
  | .GtGt => (20, [], 0)
  | .OpenBrace => (21, [], 0)
  | .LuaStart => (22, [], 0)
  | .LuaEnd => (23, [], 0)
  | .Eq => (24, [], 0)
  | .EqEq => (25, [], 0)
  | .Tilde => (26, [], 0)
  | .TildeEq => (27, [], 0)
  | .Slash => (28, [], 0)
  | .SlashSlash => (29, [], 0)
  | .Colon => (30, [], 0)
  | .ColonColon => (31, [], 0)
  | .Minus => (32, [], 0)
  | .Dot => (33, [], 0)
  | .DotDot => (34, [], 0)
  | .DotDotDot => (35, [], 0)
  | .OpenBracket => (36, [], 0)
  | .Number s => (37, s, 0)
  | .Str s ty => (38, s, StringType.enc ty)
  | .Identifier s => (39, s, 0)
  | .And => (40, [], 0)
  | .Break => (41, [], 0)
  | .Do => (42, [], 0)
  | .Else => (43, [], 0)
  | .ElseIf => (44, [], 0)
  | .End => (45, [], 0)
  | .FalseKw => (46, [], 0)
  | .For => (47, [], 0)
  | .Function => (48, [], 0)
  | .Goto => (49, [], 0)
  | .If => (50, [], 0)
  | .In => (51, [], 0)
  | .Local => (52, [], 0)
  | .Nil => (53, [], 0)
  | .Not => (54, [], 0)
  | .Or => (55, [], 0)
  | .Repeat => (56, [], 0)
  | .Return => (57, [], 0)
  | .Then => (58, [], 0)
  | .TrueKw => (59, [], 0)
  | .Until => (60, [], 0)
  | .While => (61, [], 0)
  | .Eof => (62, [], 0)
  | .Whitespace => (63, [], 0)
  | .HtmlTextChar c => (64, [c], 0)

/-- Left inverse of the token encoding. -/
def Token.decode : Nat × List Char × Nat → Token
  | (0, _, _) => .Plus
  | (1, _, _) => .Star
  | (2, _, _) => .Hat
  | (3, _, _) => .Percent
  | (4, _, _) => .Amp
  | (5, _, _) => .Pipe
  | (6, _, _) => .Hash
  | (7, _, _) => .OpenParen
  | (8, _, _) => .CloseParen
  | (9, _, _) => .CloseBrace
  | (10, _, _) => .CloseBracket
  | (11, _, _) => .Semicolon
  | (12, _, _) => .Comma
  | (13, _, _) => .Bang
  | (14, _, _) => .Lt
  | (15, _, _) => .Le
  | (16, _, _) => .LtLt
  | (17, _, _) => .OpenClosingTag
  | (18, _, _) => .Gt
  | (19, _, _) => .Ge
  | (20, _, _) => .GtGt
  | (21, _, _) => .OpenBrace
  | (22, _, _) => .LuaStart
  | (23, _, _) => .LuaEnd
  | (24, _, _) => .Eq
  | (25, _, _) => .EqEq
  | (26, _, _) => .Tilde
  | (27, _, _) => .TildeEq
  | (28, _, _) => .Slash
  | (29, _, _) => .SlashSlash
  | (30, _, _) => .Colon
  | (31, _, _) => .ColonColon
  | (32, _, _) => .Minus
  | (33, _, _) => .Dot
  | (34, _, _) => .DotDot
  | (35, _, _) => .DotDotDot
  | (36, _, _) => .OpenBracket
  | (37, s, _) => .Number s
  | (38, s, k) => .Str s (StringType.dec k)
  | (39, s, _) => .Identifier s
  | (40, _, _) => .And
  | (41, _, _) => .Break
  | (42, _, _) => .Do
  | (43, _, _) => .Else
  | (44, _, _) => .ElseIf
  | (45, _, _) => .End
  | (46, _, _) => .FalseKw
  | (47, _, _) => .For
  | (48, _, _) => .Function
  | (49, _, _) => .Goto
  | (50, _, _) => .If
  | (51, _, _) => .In
  | (52, _, _) => .Local
  | (53, _, _) => .Nil
  | (54, _, _) => .Not
  | (55, _, _) => .Or
  | (56, _, _) => .Repeat
  | (57, _, _) => .Return
  | (58, _, _) => .Then
  | (59, _, _) => .TrueKw
  | (60, _, _) => .Until
  | (61, _, _) => .While
  | (62, _, _) => .Eof
  | (63, _, _) => .Whitespace
  | (64, cs, _) => .HtmlTextChar (cs.headD (Char.ofNat 97))
  | _ => .Eof

theorem Token.decode_encode (t : Token) :
    Token.decode (Token.encode t) = t := by
  cases t <;> try rfl
  rename_i s ty
  show Token.Str s (StringType.dec (StringType.enc ty)) = Token.Str s ty
  rw [StringType.dec_enc]

instance : DecidableEq Token := fun a b =>
  if h : Token.encode a = Token.encode b then
    isTrue (by rw [← Token.decode_encode a, ← Token.decode_encode b, h])
  else
    isFalse (fun e => h (by rw [e]))


/-- The error type from error.rs (LuaXError). InvalidStart is the
internal-only backtrack signal. -/
inductive LuaXError where
  | InvalidStart
  | MissingField (s : List Char)
  | WrongFieldType (s : List Char)
  | NonTableChildren
  | UnexpectedCharacter (c : Char)
  | UnexpectedToken (s : List Char)
  | NeededToken (s : List Char)
  | ExpectedVar
  | ExpectedExpression
  | UnterminatedStringLiteral
  | InvalidEscapeSequence (c : Char)
  | InvalidAssignmentTarget
deriving DecidableEq

/-- Result of one tokenizing attempt, from lexer.rs (TokenizeResult):
a token, no valid token found, or an error. -/
inductive TokenizeResult where
  | someTok (t : Token)
  | noTok
  | errTok (e : LuaXError)
deriving DecidableEq

/-- Whitespace test used by skip_whitespace and the markup branch of
next_token (space, tab, newline). -/
def is_ws (c : Char) : Bool := c == ' ' || c == '\t' || c == '\n'

/-- skip_whitespace from lexer.rs: consume whitespace characters. -/
def skip_whitespace (l : List Char) : List Char := l.dropWhile is_ws

/-- is_valid_identifier_start from lexer.rs (Rust is_alphabetic restricted
to its ASCII fragment, or underscore). -/
def is_valid_identifier_start (c : Char) : Bool := c.isAlpha || c == '_'

/-- is_valid_in_identifier from lexer.rs (identifier start characters or
numeric characters; Rust is_numeric restricted to its ASCII fragment). -/
def is_valid_in_identifier (c : Char) : Bool :=
  is_valid_identifier_start c || c.isDigit

/-- single_char_token from lexer.rs: the single-character tokens, tried in
source order. A failed case consumes nothing. -/
def single_char_token (l : List Char) : TokenizeResult × List Char :=
  match l with
  | [] => (.noTok, [])
  | c :: r =>
    if c = '+' then (.someTok .Plus, r)
    else if c = '*' then (.someTok .Star, r)
    else if c = '^' then (.someTok .Hat, r)
    else if c = '%' then (.someTok .Percent, r)
    else if c = '&' then (.someTok .Amp, r)
    else if c = '|' then (.someTok .Pipe, r)
    else if c = '#' then (.someTok .Hash, r)
    else if c = '(' then (.someTok .OpenParen, r)
    else if c = ')' then (.someTok .CloseParen, r)
    else if c = rb then (.someTok .CloseBrace, r)
    else if c = ']' then (.someTok .CloseBracket, r)
    else if c = ';' then (.someTok .Semicolon, r)
    else if c = ',' then (.someTok .Comma, r)
    else if c = '!' then (.someTok .Bang, r)
    else (.noTok, l)

/-- double_char_token from lexer.rs: two-character tokens with
single-character fallbacks. The dollar case has no fallback and, exactly as
in the source, leaves the dollar consumed when the closing brace does not
follow (the next alternatives then run on the advanced cursor). -/
def double_char_token (l : List Char) : TokenizeResult × List Char :=
  match l with
  | [] => (.noTok, [])
  | c :: r =>
    if c = '<' then
      match r with
      | c2 :: r2 =>
        if c2 = '=' then (.someTok .Le, r2)
        else if c2 = '<' then (.someTok .LtLt, r2)
        else if c2 = '/' then (.someTok .OpenClosingTag, r2)
        else (.someTok .Lt, r)
      | [] => (.someTok .Lt, [])
    else if c = '>' then
      match r with
      | c2 :: r2 =>
        if c2 = '=' then (.someTok .Ge, r2)
        else if c2 = '>' then (.someTok .GtGt, r2)
        else (.someTok .Gt, r)
      | [] => (.someTok .Gt, [])
    else if c = lb then
      match r with
      | c2 :: r2 => if c2 = '$' then (.someTok .LuaStart, r2) else (.someTok .OpenBrace, r)
      | [] => (.someTok .OpenBrace, [])
    else if c = '$' then
      match r with
      | c2 :: r2 => if c2 = rb then (.someTok .LuaEnd, r2) else (.noTok, r)
      | [] => (.noTok, [])
    else if c = '=' then
      match r with
      | c2 :: r2 => if c2 = '=' then (.someTok .EqEq, r2) else (.someTok .Eq, r)
      | [] => (.someTok .Eq, [])
    else if c = '~' then
      match r with
      | c2 :: r2 => if c2 = '=' then (.someTok .TildeEq, r2) else (.someTok .Tilde, r)
      | [] => (.someTok .Tilde, [])
    else if c = '/' then
      match r with
      | c2 :: r2 => if c2 = '/' then (.someTok .SlashSlash, r2) else (.someTok .Slash, r)
      | [] => (.someTok .Slash, [])
    else if c = ':' then
      match r with
      | c2 :: r2 => if c2 = ':' then (.someTok .ColonColon, r2) else (.someTok .Colon, r)
      | [] => (.someTok .Colon, [])
    else (.noTok, l)

/-- triple_char_token from lexer.rs: the dot family. -/
def triple_char_token (l : List Char) : TokenizeResult × List Char :=
  match l with
  | [] => (.noTok, [])
  | c :: r =>
    if c = '.' then
      match r with
      | c2 :: r2 =>
        if c2 = '.' then
          match r2 with
          | c3 :: r3 => if c3 = '.' then (.someTok .DotDotDot, r3) else (.someTok .DotDot, r2)
          | [] => (.someTok .DotDot, [])
        else (.someTok .Dot, r)
      | [] => (.someTok .Dot, [])
    else (.noTok, l)

/-- Outcome of one string-scanning loop from lexer.rs: whether the closing
delimiter was found, the number of loop iterations, the consumed characters,
and the remaining input at loop exit. -/
structure ScanOut where
  finished : Bool
  steps : Nat
  consumed : List Char
  rest : List Char
deriving DecidableEq

/-- The quote-string scanning loop of string() from lexer.rs, for single and
double quoted strings. One equation per loop iteration: a backslash is
consumed and the unconditional advance consumes the following character with
the escaped flag set; an unescaped closing quote finishes the scan; an
escaped closing quote is consumed and the advance consumes one more
character; any other character is consumed with the escaped flag cleared. -/
def scan_quote (q : Char) : List Char → Bool → ScanOut
  | [], _ => ⟨false, 0, [], []⟩
  | c :: r, escaped =>
    if c = '\\' then
      match r with
      | [] => ⟨false, 1, [c], []⟩
      | c2 :: r2 =>
        let o := scan_quote q r2 true
        ⟨o.finished, o.steps + 1, c :: c2 :: o.consumed, o.rest⟩
    else if c = q && !escaped then ⟨true, 1, [c], r⟩
    else if c = q then
      match r with
      | [] => ⟨false, 1, [c], []⟩
      | c2 :: r2 =>
        let o := scan_quote q r2 false
        ⟨o.finished, o.steps + 1, c :: c2 :: o.consumed, o.rest⟩
    else
      let o := scan_quote q r false
      ⟨o.finished, o.steps + 1, c :: o.consumed, o.rest⟩

/-- The long-bracket scanning loop of string() from lexer.rs: the scan
finishes on two consecutive closing brackets; the loop breaks before
consuming the second one. -/
def scan_bracket : List Char → Bool → ScanOut
  | [], _ => ⟨false, 0, [], []⟩
  | c :: r, almost_close =>
    if c = ']' then
      if almost_close then ⟨true, 1, [], c :: r⟩
      else
        let o := scan_bracket r true
        ⟨o.finished, o.steps + 1, c :: o.consumed, o.rest⟩
    else
      let o := scan_bracket r false
      ⟨o.finished, o.steps + 1, c :: o.consumed, o.rest⟩

/-- string from lexer.rs: quote selection, the scan, the unterminated error
when the scan did not finish, and the stored text excluding delimiters (the
token text drops the final consumed character, which is the closing quote,
or for long brackets the first closing bracket; the second closing bracket
is consumed by the trailing advance). A single open bracket is the
bracket punctuation token. -/
def string (l : List Char) : TokenizeResult × List Char :=
  match l with
  | [] => (.noTok, [])
  | c :: r =>
    if c = '"' then
      let o := scan_quote '"' r false
      if o.finished then (.someTok (.Str o.consumed.dropLast .Double), o.rest)
      else (.errTok .UnterminatedStringLiteral, o.rest)
    else if c = sq then
      let o := scan_quote sq r false
      if o.finished then (.someTok (.Str o.consumed.dropLast .Single), o.rest)
      else (.errTok .UnterminatedStringLiteral, o.rest)
    else if c = '[' then
      match r with
      | c2 :: r2 =>
        if c2 = '[' then
          let o := scan_bracket r2 false
          if o.finished then (.someTok (.Str o.consumed.dropLast .DoubleBracket), o.rest.tail)
          else (.errTok .UnterminatedStringLiteral, o.rest)
        else (.someTok .OpenBracket, r)
      | [] => (.someTok .OpenBracket, [])
    else (.noTok, l)

/-- The fractional segment of number from lexer.rs: an optional dot
followed by digits. Returns the consumed characters and the rest. -/
def number_frac (r1 : List Char) : List Char × List Char :=
  match r1 with
  | c2 :: r2 =>
    if c2 = '.' then ('.' :: r2.takeWhile Char.isDigit, r2.dropWhile Char.isDigit)
    else ([], r1)
  | [] => ([], [])

/-- The exponent segment of number from lexer.rs: an optional exponent
marker with an optional sign; after a sign the source performs one further
unconditional advance before scanning digits, so the consumed segment can
include that extra character verbatim. -/
def number_exp (r2 : List Char) : List Char × List Char :=
  match r2 with
  | c3 :: r3 =>
    if c3 = 'e' || c3 = 'E' then
      match r3 with
      | c4 :: r4 =>
        if c4 = '-' || c4 = '+' then
          match r4 with
          | c5 :: r5 => (c3 :: c4 :: c5 :: r5.takeWhile Char.isDigit, r5.dropWhile Char.isDigit)
          | [] => ([c3, c4], [])
        else (c3 :: r3.takeWhile Char.isDigit, r3.dropWhile Char.isDigit)
      | [] => ([c3], [])
    else ([], r2)
  | [] => ([], [])

/-- number from lexer.rs: digits, the optional fractional segment, the
optional exponent segment. The token text is exactly the consumed
characters; no error is ever produced. -/
def number (l : List Char) : TokenizeResult × List Char :=
  match l with
  | [] => (.noTok, [])
  | c :: _ =>
    if c.isDigit then
      let d1 := l.takeWhile Char.isDigit
      let p2 := number_frac (l.dropWhile Char.isDigit)
      let p3 := number_exp p2.2
      (.someTok (.Number (d1 ++ p2.1 ++ p3.1)), p3.2)
    else (.noTok, l)

/-- Keyword table of identifier_or_keyword from lexer.rs. -/
def keyword_or_ident (s : List Char) : Token :=
  if s = "and".toList then .And
  else if s = "break".toList then .Break
  else if s = "do".toList then .Do
  else if s = "else".toList then .Else
  else if s = "elseif".toList then .ElseIf
  else if s = "end".toList then .End
  else if s = "false".toList then .FalseKw
  else if s = "for".toList then .For
  else if s = "function".toList then .Function
  else if s = "goto".toList then .Goto
  else if s = "if".toList then .If
  else if s = "in".toList then .In
  else if s = "local".toList then .Local
  else if s = "nil".toList then .Nil
  else if s = "not".toList then .Not
  else if s = "or".toList then .Or
  else if s = "repeat".toList then .Repeat
  else if s = "return".toList then .Return
  else if s = "then".toList then .Then
  else if s = "true".toList then .TrueKw
  else if s = "until".toList then .Until
  else if s = "while".toList then .While
  else .Identifier s

/-- identifier_or_keyword from lexer.rs: maximal munch over identifier
characters, then the keyword table. -/
def identifier_or_keyword (l : List Char) : TokenizeResult × List Char :=
  match l with
  | [] => (.noTok, [])
  | c :: r =>
    if is_valid_identifier_start c then
      (.someTok (keyword_or_ident (c :: r.takeWhile is_valid_in_identifier)),
        r.dropWhile is_valid_in_identifier)
    else (.noTok, l)

/-- Negation of the comment terminator test. -/
def not_newline (c : Char) : Bool := c != '\n'

/-- lex from lexer.rs: skip whitespace, then try the token families in
source order, threading the cursor (a family that fails after consuming, as
the dollar case does, passes the advanced cursor on). The comment function
is inlined: two dashes consume to end of line and restart lexing, one dash
is the minus token. The fuel argument only bounds the comment restart; each
restart consumes at least two characters, so length + 1 fuel always
suffices and the zero-fuel equation is unreachable from lex. -/
def lex_fuel : Nat → List Char → TokenizeResult × List Char
  | 0, l => (.noTok, l)
  | n + 1, l =>
    let l0 := skip_whitespace l
    match single_char_token l0 with
    | (.noTok, l1) =>
      match double_char_token l1 with
      | (.noTok, l2) =>
        match triple_char_token l2 with
        | (.noTok, l3) =>
          match string l3 with
          | (.noTok, l4) =>
            match number l4 with
            | (.noTok, l5) =>
              match l5 with
              | c :: l6 =>
                if c = '-' then
                  match l6 with
                  | c2 :: l7 =>
                    if c2 = '-' then lex_fuel n (l7.dropWhile not_newline)
                    else (.someTok .Minus, l6)
                  | [] => (.someTok .Minus, [])
                else identifier_or_keyword l5
              | [] => (.noTok, [])
            | r => r
          | r => r
        | r => r
      | r => r
    | r => r

/-- lex entry point with sufficient fuel. -/
def lex (l : List Char) : TokenizeResult × List Char := lex_fuel (l.length + 1) l

/-- Lexer state from lexer.rs: the unconsumed input (standing for src,
chars, current and the byte position), the end-marker-already-emitted flag
and the markup-mode nesting counter. The last two fields are modelled from
the spec: the preprocessor instructs the lexer to surface unhandled
characters as opaque text (a nesting counter, spec section 2) and to keep or
drop whitespace runs as single whitespace tokens (spec section 4.1); the
methods the preprocessor calls for this are absent from lexer.rs. -/
structure Lexer where
  rest : List Char
  emitted_eof : Bool
  html_text_mode : Nat
  allow_unknowns : Nat
  emit_ws : Bool
deriving DecidableEq

/-- Lexer::new from lexer.rs. -/
def Lexer.new (s : String) : Lexer := ⟨s.toList, false, 0, 0, false⟩

/-- enable_html_text_mode from lexer.rs. -/
def Lexer.enable_html_text_mode (lx : Lexer) : Lexer :=
  { lx with html_text_mode := lx.html_text_mode + 1 }

/-- disable_html_text_mode from lexer.rs. -/
def Lexer.disable_html_text_mode (lx : Lexer) : Lexer :=
  { lx with html_text_mode := lx.html_text_mode - 1 }

/-- next_token from lexer.rs. In markup-text mode one character is examined
per call: tag-open (or tag-close-open), one whitespace token per whitespace
character, the embedded-code opener, otherwise one opaque text character; at
end of input the end marker is produced once and later calls return no
token. In code mode lex runs; when no token starts here, an unexpected
character is an error (or, with the modelled allow-unknowns counter active,
an opaque text character), and end of input produces the end marker once.
The modelled emit-whitespace flag, when set, returns a whitespace run as one
whitespace token before lex can skip it. -/
def Lexer.next_token (lx : Lexer) : Except LuaXError (Option Token) × Lexer :=
  if 0 < lx.html_text_mode then
    match lx.rest with
    | [] =>
      if lx.emitted_eof then (.ok none, lx)
      else (.ok (some .Eof), { lx with emitted_eof := true })
    | c :: r =>
      if c = '<' then
        match r with
        | c2 :: r2 =>
          if c2 = '/' then (.ok (some .OpenClosingTag), { lx with rest := r2 })
          else (.ok (some .Lt), { lx with rest := r })
        | [] => (.ok (some .Lt), { lx with rest := [] })
      else if is_ws c then (.ok (some .Whitespace), { lx with rest := r })
      else if c = lb then
        match r with
        | c2 :: r2 =>
          if c2 = '$' then (.ok (some .LuaStart), { lx with rest := r2 })
          else (.ok (some (.HtmlTextChar c)), { lx with rest := r })
        | [] => (.ok (some (.HtmlTextChar c)), { lx with rest := [] })
      else (.ok (some (.HtmlTextChar c)), { lx with rest := r })
  else
    if lx.emit_ws && !(lx.rest.takeWhile is_ws).isEmpty then
      (.ok (some .Whitespace), { lx with rest := lx.rest.dropWhile is_ws })
    else
      match lex lx.rest with
      | (.someTok t, r) => (.ok (some t), { lx with rest := r })
      | (.errTok e, r) => (.error e, { lx with rest := r })
      | (.noTok, r) =>
        match r with
        | c :: r2 =>
          if 0 < lx.allow_unknowns then
            (.ok (some (.HtmlTextChar c)), { lx with rest := r2 })
          else (.error (.UnexpectedCharacter c), { lx with rest := c :: r2 })
        | [] =>
          if lx.emitted_eof then (.ok none, { lx with rest := [] })
          else (.ok (some .Eof), { lx with rest := [], emitted_eof := true })

/-- The allow_unknowns method called by preprocessor.rs, modelled from the
spec as a nesting-counter increment. -/
def Lexer.allow_unknowns_on (lx : Lexer) : Lexer :=
  { lx with allow_unknowns := lx.allow_unknowns + 1 }

/-- The disallow_unknowns method called by preprocessor.rs, modelled from
the spec as a nesting-counter decrement. -/
def Lexer.disallow_unknowns (lx : Lexer) : Lexer :=
  { lx with allow_unknowns := lx.allow_unknowns - 1 }

/-- The emit_whitespace method called by preprocessor.rs, modelled from the
spec: keep whitespace runs as single whitespace tokens. -/
def Lexer.emit_whitespace (lx : Lexer) : Lexer := { lx with emit_ws := true }

/-- The hide_whitespace method called by preprocessor.rs, modelled from the
spec: drop whitespace. -/
def Lexer.hide_whitespace (lx : Lexer) : Lexer := { lx with emit_ws := false }

/-- Driver looping next_token until it reports no more tokens (the token
list is returned) or an error; the fuel bound returns none when exhausted. -/
def drive : Nat → Lexer → Option (Except LuaXError (List Token))
  | 0, _ => none
  | n + 1, lx =>
    match Lexer.next_token lx with
    | (.error e, _) => some (.error e)
    | (.ok none, _) => some (.ok [])
    | (.ok (some t), lx') =>
      match drive n lx' with
      | none => none
      | some (.error e) => some (.error e)
      | some (.ok ts) => some (.ok (t :: ts))

/-- Tokenize a string with ample fuel, as the unit tests of the repository
do. -/
def tokensOfStr (s : String) : Option (Except LuaXError (List Token)) :=
  drive (s.toList.length + 2) (Lexer.new s)

/-- Token at a given index of the tokenization of a string. -/
def tokenAt (s : String) (i : Nat) : Option Token :=
  match tokensOfStr s with
  | some (.ok l) => l.get? i
  | _ => none

end Luax

namespace Luax

/-- Modelled from the spec: textual rendering of tokens (tokens.rs is
missing from the sources). Fixed tokens render as their lexemes, text
bearing tokens render their text, strings with their delimiters, the end
marker renders as nothing, a whitespace token as one space. Pinned by the
unit tests of the repository, which tokenize the rendered output. -/
def Token.display : Token → List Char
  | .Plus => ['+']
  | .Star => ['*']
  | .Hat => ['^']
  | .Percent => ['%']
  | .Amp => ['&']
  | .Pipe => ['|']
  | .Hash => ['#']
  | .OpenParen => ['(']
  | .CloseParen => [')']
  | .CloseBrace => [rb]
  | .CloseBracket => [']']
  | .Semicolon => [';']
  | .Comma => [',']
  | .Bang => ['!']
  | .Lt => ['<']
  | .Le => ['<', '=']
  | .LtLt => ['<', '<']
  | .OpenClosingTag => ['<', '/']
  | .Gt => ['>']
  | .Ge => ['>', '=']
  | .GtGt => ['>', '>']
  | .OpenBrace => [lb]
  | .LuaStart => [lb, '$']
  | .LuaEnd => ['$', rb]
  | .Eq => ['=']
  | .EqEq => ['=', '=']
  | .Tilde => ['~']
  | .TildeEq => ['~', '=']
  | .Slash => ['/']
  | .SlashSlash => ['/', '/']
  | .Colon => [':']
  | .ColonColon => [':', ':']
  | .Minus => ['-']
  | .Dot => ['.']
  | .DotDot => ['.', '.']
  | .DotDotDot => ['.', '.', '.']
  | .OpenBracket => ['[']
  | .Number s => s
  | .Str s .Double => '"' :: s ++ ['"']
  | .Str s .Single => sq :: s ++ [sq]
  | .Str s .DoubleBracket => '[' :: '[' :: s ++ [']', ']']
  | .Identifier s => s
  | .And => "and".toList
  | .Break => "break".toList
  | .Do => "do".toList
  | .Else => "else".toList
  | .ElseIf => "elseif".toList
  | .End => "end".toList
  | .FalseKw => "false".toList
  | .For => "for".toList
  | .Function => "function".toList
  | .Goto => "goto".toList
  | .If => "if".toList
  | .In => "in".toList
  | .Local => "local".toList
  | .Nil => "nil".toList
  | .Not => "not".toList
  | .Or => "or".toList
  | .Repeat => "repeat".toList
  | .Return => "return".toList
  | .Then => "then".toList
  | .TrueKw => "true".toList
  | .Until => "until".toList
  | .While => "while".toList
  | .Eof => []
  | .Whitespace => [' ']
  | .HtmlTextChar c => [c]

/-- Preprocessor state from preprocessor.rs: the owned lexer, the lookahead
token, the output sink (a byte buffer in the caller) and the
first-token-emitted flag. -/
structure Preprocessor where
  lexer : Lexer
  current : Token
  out_stream : List Char
  first_token : Bool
deriving DecidableEq

/-- Errors flowing through the preprocessor: a LuaXError, or the
out-of-fuel marker of the embedding (never reached in the runs below). -/
inductive PError where
  | fuel_out
  | luax (e : LuaXError)
deriving DecidableEq

/-- The preprocessor computation shape: Rust methods mutate self and return
Result, so a step maps the state to the updated state together with the
outcome; the state mutated so far is kept even on an error, exactly as in
the source, where a caught backtrack signal resumes from the mutated
parser. -/
def PM (α : Type) : Type := Preprocessor → Preprocessor × Except PError α

instance : Monad PM where
  pure x := fun st => (st, .ok x)
  bind a f := fun st =>
    match a st with
    | (st', .ok x) => f x st'
    | (st', .error e) => (st', .error e)

/-- Raise a LuaXError. -/
def throwL {α : Type} (e : LuaXError) : PM α := fun st => (st, .error (.luax e))

/-- Read the state. -/
def getP : PM Preprocessor := fun st => (st, .ok st)

/-- The alternatives macro from preprocessor.rs: a branch failing with the
InvalidStart backtrack signal hands control (and the possibly mutated
state) to the next branch; other errors propagate. -/
def altP {α : Type} (a : PM α) (b : PM α) : PM α := fun st =>
  match a st with
  | (st', .error (.luax .InvalidStart)) => b st'
  | r => r

/-- The optionally macro from preprocessor.rs. -/
def optionallyP {α : Type} (a : PM α) : PM (Option α) := fun st =>
  match a st with
  | (st', .ok x) => (st', .ok (some x))
  | (st', .error (.luax .InvalidStart)) => (st', .ok none)
  | (st', .error e) => (st', .error e)

/-- The require macro from preprocessor.rs: upgrade the backtrack signal to
the given committed syntax error. -/
def requireP {α : Type} (a : PM α) (e : LuaXError) : PM α := fun st =>
  match a st with
  | (st', .error (.luax .InvalidStart)) => (st', .error (.luax e))
  | r => r

/-- Append to the output sink. -/
def emit (s : List Char) : PM Unit := fun st =>
  ({ st with out_stream := st.out_stream ++ s }, .ok ())

/-- Apply a function to the owned lexer. -/
def onLexer (f : Lexer → Lexer) : PM Unit := fun st =>
  ({ st with lexer := f st.lexer }, .ok ())

/-- next_token from preprocessor.rs: echo the lookahead (unless it is the
end marker), with one separating space before every token but the first,
then pull the next token; a no-more-tokens answer surfaces as the
InvalidStart signal, exactly as in the source. -/
def next_token : PM Unit := fun st =>
  let st :=
    if st.current ≠ Token.Eof then
      { st with
        out_stream :=
          st.out_stream ++ (if st.first_token then [] else [' ']) ++ st.current.display,
        first_token := false }
    else st
  match Lexer.next_token st.lexer with
  | (.error e, lx') => ({ st with lexer := lx' }, .error (.luax e))
  | (.ok none, lx') => ({ st with lexer := lx' }, .error (.luax .InvalidStart))
  | (.ok (some t), lx') => ({ st with lexer := lx', current := t }, .ok ())

/-- next_token_silent from preprocessor.rs: pull without echoing. -/
def next_token_silent : PM Unit := fun st =>
  match Lexer.next_token st.lexer with
  | (.error e, lx') => ({ st with lexer := lx' }, .error (.luax e))
  | (.ok none, lx') => ({ st with lexer := lx' }, .error (.luax .InvalidStart))
  | (.ok (some t), lx') => ({ st with lexer := lx', current := t }, .ok ())

/-- match_token from preprocessor.rs. -/
def match_token (t : Token) : PM Bool := do
  let st ← getP
  if st.current = t then do
    next_token
    pure true
  else pure false

/-- consume_token from preprocessor.rs. -/
def consume_token (t : Token) (if_not : LuaXError) : PM Unit := do
  let st ← getP
  if st.current = t then next_token else throwL if_not

/-- match_token_silent from preprocessor.rs. -/
def match_token_silent (t : Token) : PM Bool := do
  let st ← getP
  if st.current = t then do
    next_token_silent
    pure true
  else pure false

/-- consume_token_silent from preprocessor.rs. -/
def consume_token_silent (t : Token) (if_not : LuaXError) : PM Unit := do
  let st ← getP
  if st.current = t then next_token_silent else throwL if_not

/-- break_statement from preprocessor.rs. -/
def break_statement : PM Unit := do
  if !(← match_token .Break) then throwL .InvalidStart else pure ()

/-- identifier from preprocessor.rs: the identifier text, echoed. -/
def identifier : PM (List Char) := do
  let st ← getP
  match st.current with
  | .Identifier s => do
    next_token
    pure s
  | _ => throwL .InvalidStart

/-- html_string from preprocessor.rs: string text, consumed silently. -/
def html_string : PM (List Char) := do
  let st ← getP
  match st.current with
  | .Str s _ => do
    next_token_silent
    pure s
  | _ => throwL .InvalidStart

/-- html_identifier from preprocessor.rs: identifier text, consumed
silently. -/
def html_identifier : PM (List Char) := do
  let st ← getP
  match st.current with
  | .Identifier s => do
    next_token_silent
    pure s
  | _ => throwL .InvalidStart

/-- goto_statement from preprocessor.rs. -/
def goto_statement : PM Unit := do
  if !(← match_token .Goto) then throwL .InvalidStart else do
    _ ← requireP identifier (.NeededToken "identifier".toList)
    pure ()

/-- label from preprocessor.rs. -/
def label : PM Unit := do
  if !(← match_token .ColonColon) then throwL .InvalidStart else do
    _ ← requireP identifier (.NeededToken "identifier".toList)
    consume_token .ColonColon (.NeededToken Token.ColonColon.display)

/-- boolean from preprocessor.rs. -/
def boolean : PM Unit := do
  if (← match_token .TrueKw) then pure ()
  else if (← match_token .FalseKw) then pure ()
  else throwL .InvalidStart

/-- nil_literal from preprocessor.rs. -/
def nil_literal : PM Unit := do
  if (← match_token .Nil) then pure () else throwL .InvalidStart

/-- number (rule) from preprocessor.rs. -/
def number_rule : PM Unit := do
  let st ← getP
  match st.current with
  | .Number _ => next_token
  | _ => throwL .InvalidStart

/-- string (rule) from preprocessor.rs. -/
def string_rule : PM Unit := do
  let st ← getP
  match st.current with
  | .Str _ _ => next_token
  | _ => throwL .InvalidStart

/-- literal from preprocessor.rs. -/
def literal : PM Unit :=
  altP number_rule (altP string_rule (altP boolean nil_literal))

/-- attribute from preprocessor.rs (local attribute lists): nothing unless
a less-than starts it. -/
def attrib : PM Unit := do
  if !(← match_token .Lt) then pure ()
  else do
    _ ← requireP identifier (.NeededToken "identifier".toList)
    consume_token .Gt (.NeededToken Token.Gt.display)

/-- Comma loop of attribute_name_list from preprocessor.rs. -/
def attribute_name_list_loop : Nat → PM Unit
  | 0 => fun st => (st, .error .fuel_out)
  | n + 1 => do
    if !(← match_token .Comma) then pure ()
    else do
      _ ← requireP identifier (.NeededToken "identifier".toList)
      attrib
      attribute_name_list_loop n

/-- attribute_name_list from preprocessor.rs. -/
def attribute_name_list (n : Nat) : PM Unit := do
  _ ← requireP identifier (.NeededToken "identifier".toList)
  attrib
  attribute_name_list_loop n

/-- Dot loop of funcname from preprocessor.rs. -/
def funcname_loop : Nat → PM Unit
  | 0 => fun st => (st, .error .fuel_out)
  | n + 1 => do
    if !(← match_token .Dot) then pure ()
    else do
      _ ← requireP identifier (.NeededToken "identifier".toList)
      funcname_loop n

/-- funcname from preprocessor.rs. -/
def funcname (n : Nat) : PM Unit := do
  _ ← requireP identifier (.NeededToken "identifier".toList)
  funcname_loop n
  if (← match_token .Colon) then do
    _ ← requireP identifier (.NeededToken "identifier".toList)
    pure ()
  else pure ()

/-- Comma loop of parlist from preprocessor.rs. -/
def parlist_loop : Nat → PM Unit
  | 0 => fun st => (st, .error .fuel_out)
  | n + 1 => do
    if !(← match_token .Comma) then pure ()
    else if (← match_token .DotDotDot) then pure ()
    else do
      match (← optionallyP identifier) with
      | some _ => parlist_loop n
      | none => throwL .ExpectedExpression

/-- parlist from preprocessor.rs. -/
def parlist (n : Nat) : PM Unit := do
  if (← match_token .DotDotDot) then pure ()
  else do
    match (← optionallyP identifier) with
    | some _ => parlist_loop n
    | none => throwL .InvalidStart

end Luax

namespace Luax

/-- The operator chain of binary_expression_followup from preprocessor.rs,
tried in source order; the first matching operator token is consumed. -/
def binop_match : PM Bool := do
  if (← match_token .Plus) then pure true
  else if (← match_token .Minus) then pure true
  else if (← match_token .Star) then pure true
  else if (← match_token .Slash) then pure true
  else if (← match_token .SlashSlash) then pure true
  else if (← match_token .Hat) then pure true
  else if (← match_token .Percent) then pure true
  else if (← match_token .Amp) then pure true
  else if (← match_token .Tilde) then pure true
  else if (← match_token .Pipe) then pure true
  else if (← match_token .LtLt) then pure true
  else if (← match_token .GtGt) then pure true
  else if (← match_token .DotDot) then pure true
  else if (← match_token .Lt) then pure true
  else if (← match_token .Le) then pure true
  else if (← match_token .Gt) then pure true
  else if (← match_token .Ge) then pure true
  else if (← match_token .EqEq) then pure true
  else if (← match_token .TildeEq) then pure true
  else if (← match_token .And) then pure true
  else if (← match_token .Or) then pure true
  else pure false

mutual

/-- block from preprocessor.rs: statements until the backtrack signal, then
an optional return statement. -/
def block : Nat → PM Unit
  | 0 => fun st => (st, .error .fuel_out)
  | n + 1 => do
    block_loop n
    _ ← optionallyP (return_statement n)
    pure ()

/-- The repeat_until_not loop of block from preprocessor.rs. -/
def block_loop : Nat → PM Unit
  | 0 => fun st => (st, .error .fuel_out)
  | n + 1 => fun st =>
    match statement n st with
    | (st', .ok ()) => block_loop n st'
    | (st', .error (.luax .InvalidStart)) => (st', .ok ())
    | (st', .error e) => (st', .error e)

/-- statement from preprocessor.rs, with the statement alternatives in
source order. -/
def statement : Nat → PM Unit
  | 0 => fun st => (st, .error .fuel_out)
  | n + 1 => do
    if (← match_token .Semicolon) then pure ()
    else
      altP label <|
      altP break_statement <|
      altP goto_statement <|
      altP (do_statement n) <|
      altP (while_statement n) <|
      altP (repeat_statement n) <|
      altP (if_statement n) <|
      altP (for_statement n) <|
      altP (function_statement n) <|
      altP (local_starting_statement n) <|
      call_or_assignment n

/-- do_statement from preprocessor.rs. -/
def do_statement : Nat → PM Unit
  | 0 => fun st => (st, .error .fuel_out)
  | n + 1 => do
    if !(← match_token .Do) then throwL .InvalidStart
    else do
      _ ← requireP (block n) .ExpectedExpression
      consume_token .End (.NeededToken Token.End.display)

/-- while_statement from preprocessor.rs. -/
def while_statement : Nat → PM Unit
  | 0 => fun st => (st, .error .fuel_out)
  | n + 1 => do
    if !(← match_token .While) then throwL .InvalidStart
    else do
      _ ← requireP (expression n) .ExpectedExpression
      consume_token .Do (.NeededToken Token.Do.display)
      _ ← requireP (block n) .ExpectedExpression
      consume_token .End (.NeededToken Token.End.display)

/-- repeat_statement from preprocessor.rs. -/
def repeat_statement : Nat → PM Unit
  | 0 => fun st => (st, .error .fuel_out)
  | n + 1 => do
    if !(← match_token .Repeat) then throwL .InvalidStart
    else do
      _ ← requireP (block n) .ExpectedExpression
      consume_token .Until (.NeededToken Token.Until.display)
      _ ← requireP (expression n) .ExpectedExpression
      pure ()

/-- if_statement from preprocessor.rs. -/
def if_statement : Nat → PM Unit
  | 0 => fun st => (st, .error .fuel_out)
  | n + 1 => do
    if !(← match_token .If) then throwL .InvalidStart
    else do
      _ ← requireP (expression n) .ExpectedExpression
      consume_token .Then (.NeededToken Token.Then.display)
      _ ← requireP (block n) .ExpectedExpression
      if_elseif_loop n
      if (← match_token .Else) then do
        _ ← requireP (block n) .ExpectedExpression
        pure ()
      else pure ()
      consume_token .End (.NeededToken Token.End.display)

/-- The elseif loop of if_statement from preprocessor.rs. -/
def if_elseif_loop : Nat → PM Unit
  | 0 => fun st => (st, .error .fuel_out)
  | n + 1 => do
    if !(← match_token .ElseIf) then pure ()
    else do
      _ ← requireP (expression n) .ExpectedExpression
      consume_token .Then (.NeededToken Token.Then.display)
      _ ← requireP (block n) .ExpectedExpression
      if_elseif_loop n

/-- for_statement from preprocessor.rs: numeric or generic form. -/
def for_statement : Nat → PM Unit
  | 0 => fun st => (st, .error .fuel_out)
  | n + 1 => do
    if !(← match_token .For) then throwL .InvalidStart
    else do
      _ ← requireP identifier (.NeededToken "identifier".toList)
      if (← match_token .Eq) then do
        _ ← requireP (expression n) .ExpectedExpression
        consume_token .Comma (.NeededToken Token.Comma.display)
        _ ← requireP (expression n) .ExpectedExpression
        if (← match_token .Comma) then do
          _ ← requireP (expression n) .ExpectedExpression
          pure ()
        else pure ()
      else do
        for_name_loop n
        consume_token .In (.NeededToken Token.In.display)
        _ ← requireP (explist n) .ExpectedExpression
        pure ()
      consume_token .Do (.NeededToken Token.Do.display)
      _ ← requireP (block n) .ExpectedExpression
      consume_token .End (.NeededToken Token.End.display)

/-- The name-list loop of for_statement from preprocessor.rs. -/
def for_name_loop : Nat → PM Unit
  | 0 => fun st => (st, .error .fuel_out)
  | n + 1 => do
    if !(← match_token .Comma) then pure ()
    else do
      _ ← requireP identifier (.NeededToken "identifier".toList)
      for_name_loop n

/-- function_statement from preprocessor.rs. -/
def function_statement : Nat → PM Unit
  | 0 => fun st => (st, .error .fuel_out)
  | n + 1 => do
    if !(← match_token .Function) then throwL .InvalidStart
    else do
      requireP (funcname n) (.NeededToken "identifier".toList)
      _ ← requireP (funcbody n) .ExpectedExpression
      pure ()

/-- local_starting_statement from preprocessor.rs. -/
def local_starting_statement : Nat → PM Unit
  | 0 => fun st => (st, .error .fuel_out)
  | n + 1 => do
    if !(← match_token .Local) then throwL .InvalidStart
    else do
      if (← match_token .Function) then do
        _ ← requireP identifier (.NeededToken "identifier".toList)
        _ ← requireP (funcbody n) .ExpectedExpression
        pure ()
      else do
        requireP (attribute_name_list n) (.NeededToken "identifier".toList)
        if (← match_token .Eq) then do
          _ ← requireP (explist n) .ExpectedExpression
          pure ()
        else pure ()

/-- return_statement from preprocessor.rs. -/
def return_statement : Nat → PM Unit
  | 0 => fun st => (st, .error .fuel_out)
  | n + 1 => do
    if !(← match_token .Return) then throwL .InvalidStart
    else do
      _ ← optionallyP (expression n)
      return_comma_loop n
      _ ← match_token .Semicolon
      pure ()

/-- The comma loop of return_statement from preprocessor.rs. -/
def return_comma_loop : Nat → PM Unit
  | 0 => fun st => (st, .error .fuel_out)
  | n + 1 => do
    if !(← match_token .Comma) then pure ()
    else do
      _ ← requireP (expression n) .ExpectedExpression
      return_comma_loop n

/-- explist from preprocessor.rs. -/
def explist : Nat → PM Unit
  | 0 => fun st => (st, .error .fuel_out)
  | n + 1 => do
    _ ← requireP (expression n) .ExpectedVar
    explist_loop n

/-- The comma loop of explist from preprocessor.rs. -/
def explist_loop : Nat → PM Unit
  | 0 => fun st => (st, .error .fuel_out)
  | n + 1 => do
    if !(← match_token .Comma) then pure ()
    else do
      _ ← requireP (expression n) .ExpectedVar
      explist_loop n

/-- expression from preprocessor.rs: the expression alternatives in source
order (markup literal first), then the optional binary-operator
followup. -/
def expression : Nat → PM Unit
  | 0 => fun st => (st, .error .fuel_out)
  | n + 1 => do
    altP (html_template n) <|
      altP literal <|
      altP (function_def n) <|
      altP (access_or_call n) <|
      altP (table_constructor n) <|
      unary_expression n
    _ ← optionallyP (binary_expression_followup n)
    pure ()

/-- call_or_assignment from preprocessor.rs. -/
def call_or_assignment : Nat → PM Unit
  | 0 => fun st => (st, .error .fuel_out)
  | n + 1 => do
    match (← optionallyP (access_or_call n)) with
    | none => throwL .InvalidStart
    | some _ => do
      if (← match_token .Eq) then do
        _ ← requireP (explist n) .ExpectedExpression
        pure ()
      else if (← match_token .Comma) then do
        _ ← requireP (access_or_call n) .ExpectedExpression
        coa_comma_loop n
        if (← match_token .Eq) then do
          _ ← requireP (explist n) .ExpectedExpression
          pure ()
        else pure ()
      else pure ()

/-- The target-list loop of call_or_assignment from preprocessor.rs. -/
def coa_comma_loop : Nat → PM Unit
  | 0 => fun st => (st, .error .fuel_out)
  | n + 1 => do
    if !(← match_token .Comma) then pure ()
    else do
      _ ← requireP (access_or_call n) .ExpectedExpression
      coa_comma_loop n

/-- access_or_call from preprocessor.rs: a parenthesized expression or an
identifier, then the access-or-call continuation. -/
def access_or_call : Nat → PM Unit
  | 0 => fun st => (st, .error .fuel_out)
  | n + 1 => do
    if (← match_token .OpenParen) then do
      _ ← requireP (expression n) .ExpectedVar
      consume_token .CloseParen (.NeededToken Token.CloseParen.display)
      continue_access_or_call n
    else do
      match (← optionallyP identifier) with
      | some _ => continue_access_or_call n
      | none => throwL .InvalidStart

/-- continue_access_or_call from preprocessor.rs: indexing, field access,
call arguments or method call, repeated. -/
def continue_access_or_call : Nat → PM Unit
  | 0 => fun st => (st, .error .fuel_out)
  | n + 1 => do
    if (← match_token .OpenBracket) then do
      _ ← requireP (expression n) .ExpectedVar
      consume_token .CloseBracket (.NeededToken Token.CloseBracket.display)
      continue_access_or_call n
    else if (← match_token .Dot) then do
      _ ← requireP identifier (.NeededToken "identifier".toList)
      continue_access_or_call n
    else do
      match (← optionallyP (args n)) with
      | some _ => continue_access_or_call n
      | none => do
        if (← match_token .Colon) then do
          _ ← requireP identifier (.NeededToken "identifier".toList)
          _ ← requireP (args n) .ExpectedExpression
          continue_access_or_call n
        else pure ()

/-- args from preprocessor.rs: parenthesized list, table constructor, or
string argument. -/
def args : Nat → PM Unit
  | 0 => fun st => (st, .error .fuel_out)
  | n + 1 => do
    if (← match_token .OpenParen) then do
      if !(← match_token .CloseParen) then do
        _ ← requireP (explist n) .ExpectedExpression
        consume_token .CloseParen (.NeededToken Token.CloseParen.display)
      else pure ()
    else do
      match (← optionallyP (table_constructor n)) with
      | some _ => pure ()
      | none => do
        match (← optionallyP string_rule) with
        | some _ => pure ()
        | none => throwL .InvalidStart

/-- function_def from preprocessor.rs. -/
def function_def : Nat → PM Unit
  | 0 => fun st => (st, .error .fuel_out)
  | n + 1 => do
    if !(← match_token .Function) then throwL .InvalidStart
    else do
      _ ← requireP (funcbody n) .ExpectedExpression
      pure ()

/-- funcbody from preprocessor.rs. -/
def funcbody : Nat → PM Unit
  | 0 => fun st => (st, .error .fuel_out)
  | n + 1 => do
    consume_token .OpenParen (.NeededToken Token.OpenParen.display)
    _ ← optionallyP (parlist n)
    consume_token .CloseParen (.NeededToken Token.CloseParen.display)
    _ ← requireP (block n) .ExpectedExpression
    consume_token .End (.NeededToken Token.End.display)

/-- table_constructor from preprocessor.rs. -/
def table_constructor : Nat → PM Unit
  | 0 => fun st => (st, .error .fuel_out)
  | n + 1 => do
    if !(← match_token .OpenBrace) then throwL .InvalidStart
    else do
      _ ← optionallyP (fieldlist n)
      consume_token .CloseBrace (.NeededToken Token.CloseBrace.display)

/-- fieldlist from preprocessor.rs. -/
def fieldlist : Nat → PM Unit
  | 0 => fun st => (st, .error .fuel_out)
  | n + 1 => do
    match (← optionallyP (field n)) with
    | none => pure ()
    | some _ => fieldlist_loop n

/-- The separator loop of fieldlist from preprocessor.rs: a comma is tried
before a semicolon (the second is not attempted when the first matches); a
close brace after a separator ends the list, consumed. -/
def fieldlist_loop : Nat → PM Unit
  | 0 => fun st => (st, .error .fuel_out)
  | n + 1 => do
    let sep ← do
      if (← match_token .Comma) then pure true
      else match_token .Semicolon
    if sep then do
      if (← match_token .CloseBrace) then pure ()
      else do
        _ ← requireP (field n) .ExpectedExpression
        fieldlist_loop n
    else pure ()

/-- field from preprocessor.rs. -/
def field : Nat → PM Unit
  | 0 => fun st => (st, .error .fuel_out)
  | n + 1 => do
    match (← optionallyP identifier) with
    | some _ => do
      if (← match_token .Eq) then do
        _ ← requireP (expression n) .ExpectedExpression
        pure ()
      else continue_access_or_call n
    | none => do
      if (← match_token .OpenBracket) then do
        _ ← requireP (expression n) .ExpectedExpression
        consume_token .CloseBracket (.NeededToken Token.CloseBracket.display)
        consume_token .Eq (.NeededToken Token.Eq.display)
        _ ← requireP (expression n) .ExpectedExpression
        pure ()
      else do
        match (← optionallyP (expression n)) with
        | some _ => pure ()
        | none => throwL .InvalidStart

/-- binary_expression_followup from preprocessor.rs: operators each
followed by a required expression, repeated. -/
def binary_expression_followup : Nat → PM Unit
  | 0 => fun st => (st, .error .fuel_out)
  | n + 1 => do
    if (← binop_match) then do
      _ ← requireP (expression n) .ExpectedExpression
      binary_expression_followup n
    else pure ()

/-- unary_expression from preprocessor.rs. -/
def unary_expression : Nat → PM Unit
  | 0 => fun st => (st, .error .fuel_out)
  | n + 1 => do
    let m ← do
      if (← match_token .Not) then pure true
      else if (← match_token .Hash) then pure true
      else if (← match_token .Minus) then pure true
      else match_token .Tilde
    if !m then throwL .InvalidStart
    else do
      _ ← requireP (expression n) .ExpectedExpression
      pure ()

/-- html_template from preprocessor.rs: the markup literal. The less-than
is consumed silently, the lexer is told to surface unknown characters, the
tag name is read, the open-brace table header with the tag field is
written, attributes and children follow; a closing tag name different from
the opening one raises the InvalidStart signal, exactly as in the
source. -/
def html_template : Nat → PM Unit
  | 0 => fun st => (st, .error .fuel_out)
  | n + 1 => do
    if !(← match_token_silent .Lt) then throwL .InvalidStart
    else do
      onLexer Lexer.allow_unknowns_on
      let tag ← requireP html_identifier (.NeededToken "identifier".toList)
      emit ([' ', lb] ++ " tag=\"".toList ++ tag ++ "\", ".toList)
      html_attributes n
      if (← match_token_silent .Slash) then do
        consume_token_silent .Gt (.NeededToken Token.Gt.display)
        emit ("children=".toList ++ [lb, rb, ' ', rb])
        pure ()
      else do
        consume_token_silent .Gt (.NeededToken Token.Gt.display)
        html_children n
        consume_token_silent .OpenClosingTag (.NeededToken Token.OpenClosingTag.display)
        let closing ← requireP html_identifier (.NeededToken "identifier".toList)
        if closing ≠ tag then throwL .InvalidStart
        else do
          consume_token_silent .Gt (.NeededToken Token.Gt.display)
          emit [' ', rb]
          onLexer Lexer.disallow_unknowns

/-- html_attributes from preprocessor.rs. -/
def html_attributes : Nat → PM Unit
  | 0 => fun st => (st, .error .fuel_out)
  | n + 1 => do
    emit ("attrs=".toList ++ [lb])
    html_attributes_loop n
    emit ([rb] ++ ", ".toList)

/-- The attribute loop of html_attributes from preprocessor.rs: a literal
string value or an embedded expression in braces. -/
def html_attributes_loop : Nat → PM Unit
  | 0 => fun st => (st, .error .fuel_out)
  | n + 1 => do
    match (← optionallyP html_identifier) with
    | none => pure ()
    | some key => do
      consume_token_silent .Eq (.NeededToken Token.Eq.display)
      emit (key ++ ['='])
      if (← match_token_silent .OpenBrace) then do
        _ ← requireP (expression n) .ExpectedExpression
        consume_token_silent .CloseBrace (.NeededToken Token.CloseBrace.display)
      else do
        let v ← requireP html_string (.NeededToken "string".toList)
        emit ('"' :: v ++ ['"'])
      emit ", ".toList
      html_attributes_loop n

/-- html_children from preprocessor.rs. -/
def html_children : Nat → PM Unit
  | 0 => fun st => (st, .error .fuel_out)
  | n + 1 => do
    emit ("children=".toList ++ [lb])
    html_children_loop n
    emit [rb]

/-- The child loop of html_children from preprocessor.rs: an embedded
expression, a nested markup literal, or a raw text run turned into one
string literal. -/
def html_children_loop : Nat → PM Unit
  | 0 => fun st => (st, .error .fuel_out)
  | n + 1 => do
    let st ← getP
    if st.current = Token.OpenClosingTag then pure ()
    else do
      if (← match_token_silent .LuaStart) then do
        onLexer Lexer.disallow_unknowns
        _ ← requireP (expression n) .ExpectedExpression
        onLexer Lexer.allow_unknowns_on
        consume_token_silent .LuaEnd (.NeededToken Token.LuaEnd.display)
        emit [',']
        html_children_loop n
      else do
        match (← optionallyP (html_template n)) with
        | some _ => do
          emit [',']
          html_children_loop n
        | none => do
          let st2 ← getP
          if st2.current = Token.Lt ∨ st2.current = Token.OpenClosingTag ∨
              st2.current = Token.LuaStart then pure ()
          else do
            emit [' ', '"']
            onLexer Lexer.emit_whitespace
            html_raw_loop n
            onLexer Lexer.hide_whitespace
            emit ['"', ',']
            html_children_loop n

/-- The raw text loop of html_children from preprocessor.rs: every token up
to a markup delimiter is rendered into the string literal. -/
def html_raw_loop : Nat → PM Unit
  | 0 => fun st => (st, .error .fuel_out)
  | n + 1 => do
    let st ← getP
    if st.current = Token.Lt ∨ st.current = Token.LuaStart ∨
        st.current = Token.OpenClosingTag then pure ()
    else do
      emit st.current.display
      next_token_silent
      html_raw_loop n

end

/-- chunk from preprocessor.rs. -/
def chunk (n : Nat) : PM Unit := block n

/-- preprocess from preprocessor.rs. -/
def preprocess (n : Nat) : PM Unit := chunk n

/-- Preprocessor::new from preprocessor.rs: build the lexer and pull the
first token; the none answer would hit the unwrap (returned here as the
outer none). -/
def Preprocessor.new (s : String) : Option (Except LuaXError Preprocessor) :=
  match Lexer.next_token (Lexer.new s) with
  | (.error e, _) => some (.error e)
  | (.ok none, _) => none
  | (.ok (some t), lx) => some (.ok ⟨lx, t, [], true⟩)

/-- The preprocess entry point of mod.rs on a string: create the
preprocessor, run the chunk, and return the output buffer together with the
final lookahead token on success. -/
def preprocess_run (fuel : Nat) (s : String) :
    Option (Except PError (List Char × Token)) :=
  match Preprocessor.new s with
  | none => none
  | some (.error e) => some (.error (.luax e))
  | some (.ok st0) =>
    match preprocess fuel st0 with
    | (st, .ok ()) => some (.ok (st.out_stream, st.current))
    | (_, .error e) => some (.error e)

end Luax

namespace Luax

/-- Decidable equality for Except results, used to evaluate the embedded
programs on concrete inputs. -/
instance {e a : Type} [DecidableEq e] [DecidableEq a] : DecidableEq (Except e a) := fun x y =>
  match x, y with
  | .ok u, .ok v => if h : u = v then isTrue (by rw [h]) else isFalse (by simp [h])
  | .error u, .error v => if h : u = v then isTrue (by rw [h]) else isFalse (by simp [h])
  | .ok _, .error _ => isFalse (by simp)
  | .error _, .ok _ => isFalse (by simp)

end Luax

open Luax

/-- C4: preprocess of a bare built-in element succeeds; the produced output
buffer is exactly the expected text (hence token-for-token equivalent to
it), the whole input was consumed (the final lookahead is the end marker),
and the expected text reads back as the expected token sequence. -/
theorem c4_simple_div :
    preprocess_run 100 "return <div></div>" =
      some (Except.ok
        ("return \x7b tag=\"div\", attrs=\x7b\x7d, children=\x7b\x7d \x7d".toList, Token.Eof)) ∧
    tokensOfStr "return \x7b tag=\"div\", attrs=\x7b\x7d, children=\x7b\x7d \x7d" =
      some (Except.ok
        [Token.Return, Token.OpenBrace, Token.Identifier "tag".toList, Token.Eq,
         Token.Str "div".toList .Double, Token.Comma, Token.Identifier "attrs".toList,
         Token.Eq, Token.OpenBrace, Token.CloseBrace, Token.Comma,
         Token.Identifier "children".toList, Token.Eq, Token.OpenBrace, Token.CloseBrace,
         Token.CloseBrace, Token.Eof]) := by
  constructor
  · decide!
  · decide!

/-- C1, behavior of the code at the failing input: preprocess of an
uppercase (component) tag succeeds but emits the tag-table form, not a
call; the actual output and the output the claim expects differ at token
index one (open brace versus the component name as a callee). -/
theorem c1_component_tag_emits_table :
    preprocess_run 100 "return <Hello name=\"world\" />" =
      some (Except.ok
        ("return \x7b tag=\"Hello\", attrs=\x7bname=\"world\", \x7d, children=\x7b\x7d \x7d".toList,
         Token.Eof)) ∧
    tokenAt "return \x7b tag=\"Hello\", attrs=\x7bname=\"world\", \x7d, children=\x7b\x7d \x7d" 1 =
      some Token.OpenBrace ∧
    tokenAt "return Hello(\x7b attrs=\x7bname=\"world\", \x7d, children=\x7b\x7d \x7d)" 1 =
      some (Token.Identifier "Hello".toList) := by
  refine ⟨?_, ?_, ?_⟩
  · decide!
  · decide!
  · decide!

/-- C2, counterexample: preprocess of the single keyword end reports
success with an empty output buffer while the final lookahead still holds
the unconsumed end token of the input (whose tokenization is nonempty), so
success with part of the input left unparsed is a real outcome. -/
theorem c2_cx_success_with_unparsed_input :
    preprocess_run 100 "end" = some (Except.ok ([], Token.End)) ∧
    tokensOfStr "end" = some (Except.ok [Token.End, Token.Eof]) := by
  constructor
  · decide!
  · decide!

/-- C2, amended: preprocess parses a prefix of the input as a chunk and
does not check that the end of input was reached; here the statement
x = 1 is parsed and echoed, the run succeeds, and the trailing end token
is left unparsed in the lookahead. -/
theorem c2_amended_prefix_chunk :
    preprocess_run 100 "x = 1 end" = some (Except.ok ("x = 1".toList, Token.End)) := by
  decide!

/-- C3, behavior of the code at the failing input: a markup literal whose
closing tag name does not match the opening one does not fail the run; the
mismatch raises the internal backtrack signal, the expression alternatives
swallow it, and preprocess reports success, with the partial markup text in
the output buffer and the lookahead left on the token after the closing
name. -/
theorem c3_mismatched_closing_tag_accepted :
    preprocess_run 100 "return <div></span>" =
      some (Except.ok
        ("return \x7b tag=\"div\", attrs=\x7b\x7d, children=\x7b\x7d".toList, Token.Gt)) := by
  decide!

/-- C7, counterexample: two dashes followed by a character other than a
dash do not lex as the minus token; they start a comment, so the whole
input two-dashes-x lexes to just the end marker and no minus token is
produced. -/
theorem c7_cx_two_dashes_comment :
    tokensOfStr "--x" = some (Except.ok [Token.Eof]) ∧
    List.count Token.Minus [Token.Eof] = 0 := by
  constructor
  · decide!
  · decide

/-- C8, counterexample: in markup-text mode a run of two spaces is not
collapsed by one call; the first call consumes exactly one space and
returns one whitespace token with one space still unconsumed, and a second
call returns a second whitespace token. -/
theorem c8_cx_whitespace_not_collapsed :
    Lexer.next_token ⟨[' ', ' '], false, 1, 0, false⟩ =
      (Except.ok (some Token.Whitespace), ⟨[' '], false, 1, 0, false⟩) ∧
    Lexer.next_token ⟨[' '], false, 1, 0, false⟩ =
      (Except.ok (some Token.Whitespace), ⟨[], false, 1, 0, false⟩) := by
  constructor
  · decide
  · decide

namespace Luax

/-- Tests that a lexer answer is not the no-more-tokens answer. -/
def not_ok_none (r : Except LuaXError (Option Token)) : Bool :=
  match r with
  | .ok none => false
  | _ => true

/-- With the end marker not yet emitted, next_token never answers
no-more-tokens: it produces a token, the end marker, or an error. -/
theorem next_token_of_not_emitted (lx : Lexer) (h : lx.emitted_eof = false) :
    not_ok_none (Lexer.next_token lx).1 = true := by
  obtain ⟨rest, eof, hm, au, ew⟩ := lx
  simp only at h
  subst h
  unfold Lexer.next_token
  by_cases hm0 : 0 < hm
  · rw [if_pos hm0]
    cases rest with
    | nil => simp [not_ok_none]
    | cons c r =>
      cases r with
      | nil =>
        dsimp only
        split_ifs <;> simp [not_ok_none]
      | cons c2 r2 =>
        dsimp only
        split_ifs <;> simp [not_ok_none]
  · rw [if_neg hm0]
    by_cases hw : (ew && !(List.takeWhile is_ws rest).isEmpty) = true
    · rw [if_pos hw]
      simp [not_ok_none]
    · rw [if_neg hw]
      rcases hlex : lex rest with ⟨tr, r2⟩
      cases tr with
      | someTok t => simp [hlex, not_ok_none]
      | errTok e => simp [hlex, not_ok_none]
      | noTok =>
        cases r2 with
        | nil => simp [hlex, not_ok_none]
        | cons c r3 =>
          simp only [hlex]
          split_ifs <;> simp [not_ok_none]

end Luax

/-- C7, amended: one dash not followed by another dash lexes as the minus
token (the dash consumed, the following character left); a lone dash at end
of input is minus; two dashes begin a comment and lexing consumes to the
end of line and restarts. -/
theorem c7_minus_and_comment :
    (∀ n : Nat, ∀ c : Char, ∀ r : List Char, c ≠ '-' →
        lex_fuel (n + 1) ('-' :: c :: r) = (.someTok Token.Minus, c :: r)) ∧
    (∀ n : Nat, lex_fuel (n + 1) ['-'] = (.someTok Token.Minus, [])) ∧
    (∀ n : Nat, ∀ r : List Char,
        lex_fuel (n + 1) ('-' :: '-' :: r) = lex_fuel n (r.dropWhile not_newline)) := by
  refine ⟨?_, ?_, ?_⟩
  · intro n c r h
    have e : lex_fuel (n + 1) ('-' :: c :: r) =
        if c = '-' then lex_fuel n (r.dropWhile not_newline)
        else (.someTok Token.Minus, c :: r) := rfl
    rw [e, if_neg h]
  · intro n
    rfl
  · intro n r
    rfl

/-- C7 amended, witness at a concrete input: x is not a dash, and the
input dash-x lexes to minus leaving x. -/
theorem c7_minus_and_comment_witness :
    (('x' : Char) ≠ '-') ∧ lex_fuel (0 + 1) ['-', 'x'] = (.someTok Token.Minus, ['x']) :=
  ⟨by decide, c7_minus_and_comment.1 0 'x' [] (by decide)⟩

/-- C8, amended: in markup-text mode each whitespace character yields its
own whitespace token; one call consumes exactly one character of the run. -/
theorem c8_markup_whitespace_single_char :
    ∀ lx : Lexer, ∀ c : Char, ∀ r : List Char,
      0 < lx.html_text_mode → lx.rest = c :: r → is_ws c = true →
      Lexer.next_token lx = (Except.ok (some Token.Whitespace), { lx with rest := r }) := by
  intro lx c r hm hr hws
  have hlt : ¬(c = '<') := by
    intro e
    subst e
    exact absurd hws (by decide)
  unfold Lexer.next_token
  rw [if_pos hm, hr]
  simp only [hlt, if_false, if_pos hws, ite_false, ite_true]

/-- C8 amended, witness at a concrete input: a tab in markup mode yields
one whitespace token and consumes only the tab. -/
theorem c8_markup_whitespace_single_char_witness :
    Lexer.next_token ⟨['\t', 'a'], false, 2, 0, false⟩ =
      (Except.ok (some Token.Whitespace), ⟨['a'], false, 2, 0, false⟩) :=
  c8_markup_whitespace_single_char ⟨['\t', 'a'], false, 2, 0, false⟩ '\t' ['a']
    (by decide) rfl (by decide)

/-- C10: Preprocessor::new never hits the unwrap of a no-more-tokens
answer: for every input the first next_token call of a fresh lexer returns
a token, the end marker, or an error, so new yields a preprocessor or
propagates a lexical error. -/
theorem c10_new_first_token_exists :
    ∀ s : String, (Preprocessor.new s).isSome = true ∧
      not_ok_none (Lexer.next_token (Lexer.new s)).1 = true := by
  intro s
  have h := next_token_of_not_emitted (Lexer.new s) rfl
  refine ⟨?_, h⟩
  unfold Preprocessor.new
  rcases hnt : Lexer.next_token (Lexer.new s) with ⟨r, lx⟩
  rw [hnt] at h
  cases r with
  | error e => simp
  | ok o =>
    cases o with
    | none => simp [not_ok_none] at h
    | some t => simp

namespace Luax

/-- Unfolding equation of the quote scan on a nonempty input. -/
theorem scan_quote_cons (q c : Char) (r : List Char) (b : Bool) :
    scan_quote q (c :: r) b =
      if c = '\\' then
        match r with
        | [] => ⟨false, 1, [c], []⟩
        | c2 :: r2 =>
          let o := scan_quote q r2 true
          ⟨o.finished, o.steps + 1, c :: c2 :: o.consumed, o.rest⟩
      else if c = q && !b then ⟨true, 1, [c], r⟩
      else if c = q then
        match r with
        | [] => ⟨false, 1, [c], []⟩
        | c2 :: r2 =>
          let o := scan_quote q r2 false
          ⟨o.finished, o.steps + 1, c :: c2 :: o.consumed, o.rest⟩
      else
        let o := scan_quote q r false
        ⟨o.finished, o.steps + 1, c :: o.consumed, o.rest⟩ := by
  cases r <;> rfl

/-- The quote scan performs at most one loop iteration per remaining input
character. -/
theorem scan_quote_steps_le_aux (q : Char) :
    ∀ n : Nat, ∀ cs : List Char, cs.length ≤ n → ∀ b : Bool,
      (scan_quote q cs b).steps ≤ cs.length := by
  intro n
  induction n with
  | zero =>
    intro cs h b
    have hnil : cs = [] := List.length_eq_zero.mp (Nat.le_zero.mp h)
    subst hnil
    simp [scan_quote]
  | succ n IH =>
    intro cs h b
    cases cs with
    | nil => simp [scan_quote]
    | cons c r =>
      simp only [List.length_cons] at h
      rw [scan_quote_cons]
      split_ifs
      · cases r with
        | nil => simp
        | cons c2 r2 =>
          have hr := IH r2 (by simp at h; omega) true
          dsimp only
          simp only [List.length_cons]
          omega
      · simp
      · cases r with
        | nil => simp
        | cons c2 r2 =>
          have hr := IH r2 (by simp at h; omega) false
          dsimp only
          simp only [List.length_cons]
          omega
      · have hr := IH r (by omega) false
        dsimp only
        simp only [List.length_cons]
        omega

/-- The bracket scan performs at most one loop iteration per remaining
input character. -/
theorem scan_bracket_steps_le_aux :
    ∀ n : Nat, ∀ cs : List Char, cs.length ≤ n → ∀ b : Bool,
      (scan_bracket cs b).steps ≤ cs.length := by
  intro n
  induction n with
  | zero =>
    intro cs h b
    have hnil : cs = [] := List.length_eq_zero.mp (Nat.le_zero.mp h)
    subst hnil
    simp [scan_bracket]
  | succ n IH =>
    intro cs h b
    cases cs with
    | nil => simp [scan_bracket]
    | cons c r =>
      simp only [scan_bracket, List.length_cons] at h ⊢
      split_ifs
      · simp
      · have hr := IH r (by omega) true
        dsimp only
        omega
      · have hr := IH r (by omega) false
        dsimp only
        omega

end Luax

/-- C6: when a string scan is begun and the scan loop reaches end of input
without the closing delimiter (the scan does not finish), the string rule
fails with the unterminated string literal error, for all three string
types; and each scan loop makes at most one iteration per remaining input
character, so the scan is bounded by the input length (it is a total
function of the remaining characters). -/
theorem c6_unterminated_string_bounded :
    (∀ cs : List Char, (scan_quote '"' cs false).finished = false →
        string ('"' :: cs) =
          (.errTok .UnterminatedStringLiteral, (scan_quote '"' cs false).rest)) ∧
    (∀ cs : List Char, (scan_quote sq cs false).finished = false →
        string (sq :: cs) =
          (.errTok .UnterminatedStringLiteral, (scan_quote sq cs false).rest)) ∧
    (∀ cs : List Char, (scan_bracket cs false).finished = false →
        string ('[' :: '[' :: cs) =
          (.errTok .UnterminatedStringLiteral, (scan_bracket cs false).rest)) ∧
    (∀ q : Char, ∀ cs : List Char, ∀ b : Bool, (scan_quote q cs b).steps ≤ cs.length) ∧
    (∀ cs : List Char, ∀ b : Bool, (scan_bracket cs b).steps ≤ cs.length) := by
  refine ⟨?_, ?_, ?_, ?_, ?_⟩
  · intro cs h
    have e : string ('"' :: cs) =
        if (scan_quote '"' cs false).finished
        then (.someTok (.Str (scan_quote '"' cs false).consumed.dropLast .Double),
              (scan_quote '"' cs false).rest)
        else (.errTok .UnterminatedStringLiteral, (scan_quote '"' cs false).rest) := rfl
    rw [e, if_neg (by simp [h])]
  · intro cs h
    have e : string (sq :: cs) =
        if (scan_quote sq cs false).finished
        then (.someTok (.Str (scan_quote sq cs false).consumed.dropLast .Single),
              (scan_quote sq cs false).rest)
        else (.errTok .UnterminatedStringLiteral, (scan_quote sq cs false).rest) := rfl
    rw [e, if_neg (by simp [h])]
  · intro cs h
    have e : string ('[' :: '[' :: cs) =
        if (scan_bracket cs false).finished
        then (.someTok (.Str (scan_bracket cs false).consumed.dropLast .DoubleBracket),
              (scan_bracket cs false).rest.tail)
        else (.errTok .UnterminatedStringLiteral, (scan_bracket cs false).rest) := rfl
    rw [e, if_neg (by simp [h])]
  · intro q cs b
    exact scan_quote_steps_le_aux q cs.length cs le_rfl b
  · intro cs b
    exact scan_bracket_steps_le_aux cs.length cs le_rfl b

/-- C6, witness: concrete unterminated literals of each type fail with the
unterminated string error, and concrete step bounds hold. -/
theorem c6_unterminated_string_bounded_witness :
    (string ('"' :: "abc".toList) =
      (.errTok .UnterminatedStringLiteral, (scan_quote '"' "abc".toList false).rest)) ∧
    (string (sq :: "ab".toList) =
      (.errTok .UnterminatedStringLiteral, (scan_quote sq "ab".toList false).rest)) ∧
    (string ('[' :: '[' :: "ab]x".toList) =
      (.errTok .UnterminatedStringLiteral, (scan_bracket "ab]x".toList false).rest)) ∧
    (scan_quote '"' "a\\".toList false).steps ≤ ("a\\".toList).length ∧
    (scan_bracket "ab".toList false).steps ≤ ("ab".toList).length :=
  ⟨c6_unterminated_string_bounded.1 "abc".toList (by decide),
   c6_unterminated_string_bounded.2.1 "ab".toList (by decide),
   c6_unterminated_string_bounded.2.2.1 "ab]x".toList (by decide),
   c6_unterminated_string_bounded.2.2.2.1 '"' "a\\".toList false,
   c6_unterminated_string_bounded.2.2.2.2 "ab".toList false⟩

namespace Luax

/-- The fractional segment consumes a prefix: consumed plus rest is the
input. -/
theorem number_frac_split (r1 : List Char) :
    (number_frac r1).1 ++ (number_frac r1).2 = r1 := by
  cases r1 with
  | nil => simp [number_frac]
  | cons c2 r2 =>
    simp only [number_frac]
    split_ifs with hdot
    · subst hdot
      simp [List.takeWhile_append_dropWhile]
    · simp

/-- The exponent segment consumes a prefix: consumed plus rest is the
input. -/
theorem number_exp_split (r2 : List Char) :
    (number_exp r2).1 ++ (number_exp r2).2 = r2 := by
  cases r2 with
  | nil => simp [number_exp]
  | cons c3 r3 =>
    simp only [number_exp]
    split_ifs with he
    · cases r3 with
      | nil => simp
      | cons c4 r4 =>
        dsimp only
        split_ifs with hs
        · cases r4 with
          | nil => simp
          | cons c5 r5 =>
            simp [List.takeWhile_append_dropWhile]
        · simp [List.takeWhile_append_dropWhile]
    · simp

/-- Unfolding equation of the number scan on a nonempty input. -/
theorem number_cons (c : Char) (cl : List Char) :
    number (c :: cl) =
      if c.isDigit then
        ((.someTok (.Number ((c :: cl).takeWhile Char.isDigit ++
            (number_frac ((c :: cl).dropWhile Char.isDigit)).1 ++
            (number_exp (number_frac ((c :: cl).dropWhile Char.isDigit)).2).1)),
          (number_exp (number_frac ((c :: cl).dropWhile Char.isDigit)).2).2) :
          TokenizeResult × List Char)
      else (.noTok, c :: cl) := rfl

/-- On a digit-headed input the number scan succeeds with a Number token
whose text together with the returned rest is exactly the input, and the
text is nonempty. -/
theorem number_succeeds (c : Char) (cl : List Char) (hd : c.isDigit = true) :
    ∃ s rest : List Char, number (c :: cl) = (.someTok (.Number s), rest) ∧
      s ++ rest = c :: cl ∧ s ≠ [] := by
  rw [number_cons, if_pos hd]
  refine ⟨_, _, rfl, ?_, ?_⟩
  · rw [List.append_assoc, List.append_assoc, number_exp_split, number_frac_split,
      List.takeWhile_append_dropWhile]
  · have : (c :: cl).takeWhile Char.isDigit = c :: cl.takeWhile Char.isDigit :=
      List.takeWhile_cons_of_pos hd
    simp [this]

end Luax

/-- C9: the number scan never produces an error (its result is no-token or
a token), and whenever it produces a token the token is a Number whose text
is exactly the consumed prefix of the input, retained verbatim: text plus
remaining input reassemble the input, and the text is nonempty. -/
theorem c9_number_verbatim :
    (∀ l : List Char, (number l).1 = .noTok ∨ ∃ t : Token, (number l).1 = .someTok t) ∧
    (∀ l r : List Char, ∀ t : Token, number l = (.someTok t, r) →
        ∃ s : List Char, t = .Number s ∧ s ++ r = l ∧ s ≠ []) := by
  constructor
  · intro l
    cases l with
    | nil => left; rfl
    | cons c cl =>
      by_cases hd : c.isDigit = true
      · obtain ⟨s, rest, e, _, _⟩ := number_succeeds c cl hd
        right
        exact ⟨.Number s, by rw [e]⟩
      · left
        rw [number_cons, if_neg hd]
  · intro l r t h
    cases l with
    | nil =>
      exact absurd h (by simp [number])
    | cons c cl =>
      by_cases hd : c.isDigit = true
      · obtain ⟨s, rest, e, hsp, hne⟩ := number_succeeds c cl hd
        rw [e] at h
        obtain ⟨h1, h2⟩ := Prod.mk.injEq .. ▸ h
        cases h1
        exact ⟨s, rfl, by rw [← h2]; exact hsp, hne⟩
      · rw [number_cons, if_neg hd] at h
        exact absurd h (by simp)

/-- C9, witness: a malformed exponent tail (sign followed by a non-digit)
still yields a Number token with the consumed text verbatim; the scan of
1e-x5 consumes the whole input including the character skipped by the
post-sign advance. -/
theorem c9_number_verbatim_witness :
    ((number "1e-x5".toList).1 = .noTok ∨ ∃ t : Token, (number "1e-x5".toList).1 = .someTok t) ∧
    ∃ s : List Char, (Token.Number "1e-x5".toList : Token) = .Number s ∧
      s ++ [] = "1e-x5".toList ∧ s ≠ [] :=
  ⟨c9_number_verbatim.1 "1e-x5".toList,
   c9_number_verbatim.2 "1e-x5".toList [] (.Number "1e-x5".toList) (by decide)⟩


namespace Luax

/-- The single-character tokenizer never produces the end marker. -/
theorem single_char_token_ne_eof (l : List Char) :
    (single_char_token l).1 ≠ .someTok .Eof := by
  cases l with
  | nil => exact fun h => TokenizeResult.noConfusion h
  | cons c r =>
    simp only [single_char_token]
    by_cases h1 : c = '+'
    · rw [if_pos h1]
      exact fun h => Token.noConfusion (TokenizeResult.someTok.inj h)
    · rw [if_neg h1]
      by_cases h2 : c = '*'
      · rw [if_pos h2]
        exact fun h => Token.noConfusion (TokenizeResult.someTok.inj h)
      · rw [if_neg h2]
        by_cases h3 : c = '^'
        · rw [if_pos h3]
          exact fun h => Token.noConfusion (TokenizeResult.someTok.inj h)
        · rw [if_neg h3]
          by_cases h4 : c = '%'
          · rw [if_pos h4]
            exact fun h => Token.noConfusion (TokenizeResult.someTok.inj h)
          · rw [if_neg h4]
            by_cases h5 : c = '&'
            · rw [if_pos h5]
              exact fun h => Token.noConfusion (TokenizeResult.someTok.inj h)
            · rw [if_neg h5]
              by_cases h6 : c = '|'
              · rw [if_pos h6]
                exact fun h => Token.noConfusion (TokenizeResult.someTok.inj h)
              · rw [if_neg h6]
                by_cases h7 : c = '#'
                · rw [if_pos h7]
                  exact fun h => Token.noConfusion (TokenizeResult.someTok.inj h)
                · rw [if_neg h7]
                  by_cases h8 : c = '('
                  · rw [if_pos h8]
                    exact fun h => Token.noConfusion (TokenizeResult.someTok.inj h)
                  · rw [if_neg h8]
                    by_cases h9 : c = ')'
                    · rw [if_pos h9]
                      exact fun h => Token.noConfusion (TokenizeResult.someTok.inj h)
                    · rw [if_neg h9]
                      by_cases h10 : c = rb
                      · rw [if_pos h10]
                        exact fun h => Token.noConfusion (TokenizeResult.someTok.inj h)
                      · rw [if_neg h10]
                        by_cases h11 : c = ']'
                        · rw [if_pos h11]
                          exact fun h => Token.noConfusion (TokenizeResult.someTok.inj h)
                        · rw [if_neg h11]
                          by_cases h12 : c = ';'
                          · rw [if_pos h12]
                            exact fun h => Token.noConfusion (TokenizeResult.someTok.inj h)
                          · rw [if_neg h12]
                            by_cases h13 : c = ','
                            · rw [if_pos h13]
                              exact fun h => Token.noConfusion (TokenizeResult.someTok.inj h)
                            · rw [if_neg h13]
                              by_cases h14 : c = '!'
                              · rw [if_pos h14]
                                exact fun h => Token.noConfusion (TokenizeResult.someTok.inj h)
                              · rw [if_neg h14]
                                exact fun h => TokenizeResult.noConfusion h

/-- The double-character tokenizer never produces the end marker. -/
theorem double_char_token_ne_eof (l : List Char) :
    (double_char_token l).1 ≠ .someTok .Eof := by
  cases l with
  | nil => exact fun h => TokenizeResult.noConfusion h
  | cons c r =>
    simp only [double_char_token]
    by_cases h1 : c = '<'
    · rw [if_pos h1]
      cases r with
      | nil =>
        dsimp only
        exact fun h => Token.noConfusion (TokenizeResult.someTok.inj h)
      | cons c2 r2 =>
        dsimp only
        by_cases ha1 : c2 = '='
        · rw [if_pos ha1]
          exact fun h => Token.noConfusion (TokenizeResult.someTok.inj h)
        · rw [if_neg ha1]
          by_cases ha2 : c2 = '<'
          · rw [if_pos ha2]
            exact fun h => Token.noConfusion (TokenizeResult.someTok.inj h)
          · rw [if_neg ha2]
            by_cases ha3 : c2 = '/'
            · rw [if_pos ha3]
              exact fun h => Token.noConfusion (TokenizeResult.someTok.inj h)
            · rw [if_neg ha3]
              exact fun h => Token.noConfusion (TokenizeResult.someTok.inj h)
    · rw [if_neg h1]
      by_cases h2 : c = '>'
      · rw [if_pos h2]
        cases r with
        | nil =>
          dsimp only
          exact fun h => Token.noConfusion (TokenizeResult.someTok.inj h)
        | cons c2 r2 =>
          dsimp only
          by_cases hb1 : c2 = '='
          · rw [if_pos hb1]
            exact fun h => Token.noConfusion (TokenizeResult.someTok.inj h)
          · rw [if_neg hb1]
            by_cases hb2 : c2 = '>'
            · rw [if_pos hb2]
              exact fun h => Token.noConfusion (TokenizeResult.someTok.inj h)
            · rw [if_neg hb2]
              exact fun h => Token.noConfusion (TokenizeResult.someTok.inj h)
      · rw [if_neg h2]
        by_cases h3 : c = lb
        · rw [if_pos h3]
          cases r with
          | nil =>
            dsimp only
            exact fun h => Token.noConfusion (TokenizeResult.someTok.inj h)
          | cons c2 r2 =>
            dsimp only
            by_cases hc1 : c2 = '$'
            · rw [if_pos hc1]
              exact fun h => Token.noConfusion (TokenizeResult.someTok.inj h)
            · rw [if_neg hc1]
              exact fun h => Token.noConfusion (TokenizeResult.someTok.inj h)
        · rw [if_neg h3]
          by_cases h4 : c = '$'
          · rw [if_pos h4]
            cases r with
            | nil =>
              dsimp only
              exact fun h => TokenizeResult.noConfusion h
            | cons c2 r2 =>
              dsimp only
              by_cases hd1 : c2 = rb
              · rw [if_pos hd1]
                exact fun h => Token.noConfusion (TokenizeResult.someTok.inj h)
              · rw [if_neg hd1]
                exact fun h => TokenizeResult.noConfusion h
          · rw [if_neg h4]
            by_cases h5 : c = '='
            · rw [if_pos h5]
              cases r with
              | nil =>
                dsimp only
                exact fun h => Token.noConfusion (TokenizeResult.someTok.inj h)
              | cons c2 r2 =>
                dsimp only
                by_cases he1 : c2 = '='
                · rw [if_pos he1]
                  exact fun h => Token.noConfusion (TokenizeResult.someTok.inj h)
                · rw [if_neg he1]
                  exact fun h => Token.noConfusion (TokenizeResult.someTok.inj h)
            · rw [if_neg h5]
              by_cases h6 : c = '~'
              · rw [if_pos h6]
                cases r with
                | nil =>
                  dsimp only
                  exact fun h => Token.noConfusion (TokenizeResult.someTok.inj h)
                | cons c2 r2 =>
                  dsimp only
                  by_cases hf1 : c2 = '='
                  · rw [if_pos hf1]
                    exact fun h => Token.noConfusion (TokenizeResult.someTok.inj h)
                  · rw [if_neg hf1]
                    exact fun h => Token.noConfusion (TokenizeResult.someTok.inj h)
              · rw [if_neg h6]
                by_cases h7 : c = '/'
                · rw [if_pos h7]
                  cases r with
                  | nil =>
                    dsimp only
                    exact fun h => Token.noConfusion (TokenizeResult.someTok.inj h)
                  | cons c2 r2 =>
                    dsimp only
                    by_cases hg1 : c2 = '/'
                    · rw [if_pos hg1]
                      exact fun h => Token.noConfusion (TokenizeResult.someTok.inj h)
                    · rw [if_neg hg1]
                      exact fun h => Token.noConfusion (TokenizeResult.someTok.inj h)
                · rw [if_neg h7]
                  by_cases h8 : c = ':'
                  · rw [if_pos h8]
                    cases r with
                    | nil =>
                      dsimp only
                      exact fun h => Token.noConfusion (TokenizeResult.someTok.inj h)
                    | cons c2 r2 =>
                      dsimp only
                      by_cases hh1 : c2 = ':'
                      · rw [if_pos hh1]
                        exact fun h => Token.noConfusion (TokenizeResult.someTok.inj h)
                      · rw [if_neg hh1]
                        exact fun h => Token.noConfusion (TokenizeResult.someTok.inj h)
                  · rw [if_neg h8]
                    exact fun h => TokenizeResult.noConfusion h

/-- The triple-character tokenizer never produces the end marker. -/
theorem triple_char_token_ne_eof (l : List Char) :
    (triple_char_token l).1 ≠ .someTok .Eof := by
  cases l with
  | nil => exact fun h => TokenizeResult.noConfusion h
  | cons c r =>
    simp only [triple_char_token]
    by_cases h1 : c = '.'
    · rw [if_pos h1]
      cases r with
      | nil =>
        dsimp only
        exact fun h => Token.noConfusion (TokenizeResult.someTok.inj h)
      | cons c2 r2 =>
        dsimp only
        by_cases hy1 : c2 = '.'
        · rw [if_pos hy1]
          cases r2 with
          | nil =>
            dsimp only
            exact fun h => Token.noConfusion (TokenizeResult.someTok.inj h)
          | cons c3 r3 =>
            dsimp only
            by_cases hz1 : c3 = '.'
            · rw [if_pos hz1]
              exact fun h => Token.noConfusion (TokenizeResult.someTok.inj h)
            · rw [if_neg hz1]
              exact fun h => Token.noConfusion (TokenizeResult.someTok.inj h)
        · rw [if_neg hy1]
          exact fun h => Token.noConfusion (TokenizeResult.someTok.inj h)
    · rw [if_neg h1]
      exact fun h => TokenizeResult.noConfusion h

/-- The string tokenizer never produces the end marker. -/
theorem string_ne_eof (l : List Char) :
    (string l).1 ≠ .someTok .Eof := by
  cases l with
  | nil => exact fun h => TokenizeResult.noConfusion h
  | cons c r =>
    simp only [string]
    by_cases h1 : c = '"'
    · rw [if_pos h1]
      by_cases hs1 : (scan_quote '"' r false).finished = true
      · rw [if_pos hs1]
        exact fun h => Token.noConfusion (TokenizeResult.someTok.inj h)
      · rw [if_neg hs1]
        exact fun h => TokenizeResult.noConfusion h
    · rw [if_neg h1]
      by_cases h2 : c = sq
      · rw [if_pos h2]
        by_cases ht1 : (scan_quote sq r false).finished = true
        · rw [if_pos ht1]
          exact fun h => Token.noConfusion (TokenizeResult.someTok.inj h)
        · rw [if_neg ht1]
          exact fun h => TokenizeResult.noConfusion h
      · rw [if_neg h2]
        by_cases h3 : c = '['
        · rw [if_pos h3]
          cases r with
          | nil =>
            dsimp only
            exact fun h => Token.noConfusion (TokenizeResult.someTok.inj h)
          | cons c2 r2 =>
            dsimp only
            by_cases hw1 : c2 = '['
            · rw [if_pos hw1]
              by_cases hv1 : (scan_bracket r2 false).finished = true
              · rw [if_pos hv1]
                exact fun h => Token.noConfusion (TokenizeResult.someTok.inj h)
              · rw [if_neg hv1]
                exact fun h => TokenizeResult.noConfusion h
            · rw [if_neg hw1]
              exact fun h => Token.noConfusion (TokenizeResult.someTok.inj h)
        · rw [if_neg h3]
          exact fun h => TokenizeResult.noConfusion h

/-- The keyword table never yields the end marker. -/
theorem keyword_or_ident_ne_eof (s : List Char) : keyword_or_ident s ≠ .Eof := by
  unfold keyword_or_ident
  by_cases hk1 : s = "and".toList
  · rw [if_pos hk1]
    exact fun h => Token.noConfusion h
  · rw [if_neg hk1]
    by_cases hk2 : s = "break".toList
    · rw [if_pos hk2]
      exact fun h => Token.noConfusion h
    · rw [if_neg hk2]
      by_cases hk3 : s = "do".toList
      · rw [if_pos hk3]
        exact fun h => Token.noConfusion h
      · rw [if_neg hk3]
        by_cases hk4 : s = "else".toList
        · rw [if_pos hk4]
          exact fun h => Token.noConfusion h
        · rw [if_neg hk4]
          by_cases hk5 : s = "elseif".toList
          · rw [if_pos hk5]
            exact fun h => Token.noConfusion h
          · rw [if_neg hk5]
            by_cases hk6 : s = "end".toList
            · rw [if_pos hk6]
              exact fun h => Token.noConfusion h
            · rw [if_neg hk6]
              by_cases hk7 : s = "false".toList
              · rw [if_pos hk7]
                exact fun h => Token.noConfusion h
              · rw [if_neg hk7]
                by_cases hk8 : s = "for".toList
                · rw [if_pos hk8]
                  exact fun h => Token.noConfusion h
                · rw [if_neg hk8]
                  by_cases hk9 : s = "function".toList
                  · rw [if_pos hk9]
                    exact fun h => Token.noConfusion h
                  · rw [if_neg hk9]
                    by_cases hk10 : s = "goto".toList
                    · rw [if_pos hk10]
                      exact fun h => Token.noConfusion h
                    · rw [if_neg hk10]
                      by_cases hk11 : s = "if".toList
                      · rw [if_pos hk11]
                        exact fun h => Token.noConfusion h
                      · rw [if_neg hk11]
                        by_cases hk12 : s = "in".toList
                        · rw [if_pos hk12]
                          exact fun h => Token.noConfusion h
                        · rw [if_neg hk12]
                          by_cases hk13 : s = "local".toList
                          · rw [if_pos hk13]
                            exact fun h => Token.noConfusion h
                          · rw [if_neg hk13]
                            by_cases hk14 : s = "nil".toList
                            · rw [if_pos hk14]
                              exact fun h => Token.noConfusion h
                            · rw [if_neg hk14]
                              by_cases hk15 : s = "not".toList
                              · rw [if_pos hk15]
                                exact fun h => Token.noConfusion h
                              · rw [if_neg hk15]
                                by_cases hk16 : s = "or".toList
                                · rw [if_pos hk16]
                                  exact fun h => Token.noConfusion h
                                · rw [if_neg hk16]
                                  by_cases hk17 : s = "repeat".toList
                                  · rw [if_pos hk17]
                                    exact fun h => Token.noConfusion h
                                  · rw [if_neg hk17]
                                    by_cases hk18 : s = "return".toList
                                    · rw [if_pos hk18]
                                      exact fun h => Token.noConfusion h
                                    · rw [if_neg hk18]
                                      by_cases hk19 : s = "then".toList
                                      · rw [if_pos hk19]
                                        exact fun h => Token.noConfusion h
                                      · rw [if_neg hk19]
                                        by_cases hk20 : s = "true".toList
                                        · rw [if_pos hk20]
                                          exact fun h => Token.noConfusion h
                                        · rw [if_neg hk20]
                                          by_cases hk21 : s = "until".toList
                                          · rw [if_pos hk21]
                                            exact fun h => Token.noConfusion h
                                          · rw [if_neg hk21]
                                            by_cases hk22 : s = "while".toList
                                            · rw [if_pos hk22]
                                              exact fun h => Token.noConfusion h
                                            · rw [if_neg hk22]
                                              exact fun h => Token.noConfusion h

/-- The number tokenizer never produces the end marker. -/
theorem number_ne_eof (l : List Char) :
    (number l).1 ≠ .someTok .Eof := by
  cases l with
  | nil => exact fun h => TokenizeResult.noConfusion h
  | cons c cl =>
    rw [number_cons]
    by_cases hn1 : c.isDigit = true
    · rw [if_pos hn1]
      exact fun h => Token.noConfusion (TokenizeResult.someTok.inj h)
    · rw [if_neg hn1]
      exact fun h => TokenizeResult.noConfusion h

/-- The identifier tokenizer never produces the end marker. -/
theorem identifier_or_keyword_ne_eof (l : List Char) :
    (identifier_or_keyword l).1 ≠ .someTok .Eof := by
  cases l with
  | nil => exact fun h => TokenizeResult.noConfusion h
  | cons c r =>
    simp only [identifier_or_keyword]
    by_cases hi1 : is_valid_identifier_start c = true
    · rw [if_pos hi1]
      exact fun h => keyword_or_ident_ne_eof _ (TokenizeResult.someTok.inj h)
    · rw [if_neg hi1]
      exact fun h => TokenizeResult.noConfusion h


/-- lex never produces the end marker: the end marker comes only from
next_token itself. -/
theorem lex_fuel_ne_eof : ∀ n : Nat, ∀ l : List Char,
    (lex_fuel n l).1 ≠ .someTok .Eof := by
  intro n
  induction n with
  | zero => intro l; simp [lex_fuel]
  | succ n IH =>
    intro l
    simp only [lex_fuel]
    rcases h1 : single_char_token (skip_whitespace l) with ⟨t1, l1⟩
    have hne1 := single_char_token_ne_eof (skip_whitespace l)
    rw [h1] at hne1
    cases t1 with
    | someTok t => simpa using hne1
    | errTok e => simp
    | noTok =>
      dsimp only
      rcases h2 : double_char_token l1 with ⟨t2, l2⟩
      have hne2 := double_char_token_ne_eof l1
      rw [h2] at hne2
      cases t2 with
      | someTok t => simpa using hne2
      | errTok e => simp
      | noTok =>
        dsimp only
        rcases h3 : triple_char_token l2 with ⟨t3, l3⟩
        have hne3 := triple_char_token_ne_eof l2
        rw [h3] at hne3
        cases t3 with
        | someTok t => simpa using hne3
        | errTok e => simp
        | noTok =>
          dsimp only
          rcases h4 : string l3 with ⟨t4, l4⟩
          have hne4 := string_ne_eof l3
          rw [h4] at hne4
          cases t4 with
          | someTok t => simpa using hne4
          | errTok e => simp
          | noTok =>
            dsimp only
            rcases h5 : number l4 with ⟨t5, l5⟩
            have hne5 := number_ne_eof l4
            rw [h5] at hne5
            cases t5 with
            | someTok t => simpa using hne5
            | errTok e => simp
            | noTok =>
              dsimp only
              cases l5 with
              | nil => simp
              | cons c l6 =>
                dsimp only
                split_ifs with hdash
                · cases l6 with
                  | nil => simp
                  | cons c2 l7 =>
                    dsimp only
                    split_ifs with hdash2
                    · exact IH _
                    · simp
                · exact identifier_or_keyword_ne_eof _


end Luax
namespace Luax

/-- Lexer state invariant: once the end marker has been emitted, the input
is exhausted. It holds of a fresh lexer and is preserved by next_token. -/
def LexInv (lx : Lexer) : Prop := lx.emitted_eof = true → lx.rest = []

/-- Once the end marker has been emitted and the input is exhausted,
next_token returns no token and leaves the state unchanged, in both modes. -/
theorem nt_after_eof (lx : Lexer) (he : lx.emitted_eof = true)
    (hr : lx.rest = []) : Lexer.next_token lx = (.ok none, lx) := by
  obtain ⟨rest, e, htm, au, ws⟩ := lx
  simp only at he hr
  subst he hr
  by_cases hm : 0 < htm
  · simp only [Lexer.next_token]
    rw [if_pos hm]
    simp
  · simp only [Lexer.next_token]
    rw [if_neg hm]
    cases ws with
    | false => rfl
    | true => rfl

/-- Master case analysis of next_token: an end-marker result comes only
from a state that has not yet emitted it and leaves a state that has, with
no input left; any other result leaves the emitted flag unchanged; a
no-token result comes only after the end marker was emitted. -/
theorem nt_master (lx : Lexer) :
    ((Lexer.next_token lx).1 = .ok (some Token.Eof) →
      lx.emitted_eof = false ∧ (Lexer.next_token lx).2.emitted_eof = true ∧
      (Lexer.next_token lx).2.rest = []) ∧
    ((Lexer.next_token lx).1 ≠ .ok (some Token.Eof) →
      (Lexer.next_token lx).2.emitted_eof = lx.emitted_eof) ∧
    ((Lexer.next_token lx).1 = .ok none → lx.emitted_eof = true) := by
  obtain ⟨rest, e, htm, au, ws⟩ := lx
  simp only [Lexer.next_token]
  by_cases hm : 0 < htm
  · rw [if_pos hm]
    cases rest with
    | nil =>
      dsimp only
      cases e with
      | true =>
        rw [if_pos rfl]
        exact ⟨fun h => Option.noConfusion (Except.ok.inj h), fun _ => rfl,
               fun _ => rfl⟩
      | false =>
        rw [if_neg (by decide : ¬ (false = true))]
        exact ⟨fun _ => ⟨rfl, rfl, rfl⟩, fun h => absurd rfl h,
               fun h => Option.noConfusion (Except.ok.inj h)⟩
    | cons c r =>
      dsimp only
      by_cases h1 : c = '<'
      · rw [if_pos h1]
        cases r with
        | nil =>
          exact ⟨fun h => Token.noConfusion (Option.some.inj (Except.ok.inj h)),
                 fun _ => rfl, fun h => Option.noConfusion (Except.ok.inj h)⟩
        | cons c2 r2 =>
          dsimp only
          by_cases h2 : c2 = '/'
          · rw [if_pos h2]
            exact ⟨fun h => Token.noConfusion (Option.some.inj (Except.ok.inj h)),
                   fun _ => rfl, fun h => Option.noConfusion (Except.ok.inj h)⟩
          · rw [if_neg h2]
            exact ⟨fun h => Token.noConfusion (Option.some.inj (Except.ok.inj h)),
                   fun _ => rfl, fun h => Option.noConfusion (Except.ok.inj h)⟩
      · rw [if_neg h1]
        by_cases h2 : is_ws c = true
        · rw [if_pos h2]
          exact ⟨fun h => Token.noConfusion (Option.some.inj (Except.ok.inj h)),
                 fun _ => rfl, fun h => Option.noConfusion (Except.ok.inj h)⟩
        · rw [if_neg h2]
          by_cases h3 : c = lb
          · rw [if_pos h3]
            cases r with
            | nil =>
              exact ⟨fun h => Token.noConfusion (Option.some.inj (Except.ok.inj h)),
                     fun _ => rfl, fun h => Option.noConfusion (Except.ok.inj h)⟩
            | cons c2 r2 =>
              dsimp only
              by_cases h4 : c2 = '$'
              · rw [if_pos h4]
                exact ⟨fun h => Token.noConfusion (Option.some.inj (Except.ok.inj h)),
                       fun _ => rfl, fun h => Option.noConfusion (Except.ok.inj h)⟩
              · rw [if_neg h4]
                exact ⟨fun h => Token.noConfusion (Option.some.inj (Except.ok.inj h)),
                       fun _ => rfl, fun h => Option.noConfusion (Except.ok.inj h)⟩
          · rw [if_neg h3]
            exact ⟨fun h => Token.noConfusion (Option.some.inj (Except.ok.inj h)),
                   fun _ => rfl, fun h => Option.noConfusion (Except.ok.inj h)⟩
  · rw [if_neg hm]
    by_cases hw : (ws && !(List.takeWhile is_ws rest).isEmpty) = true
    · rw [if_pos hw]
      exact ⟨fun h => Token.noConfusion (Option.some.inj (Except.ok.inj h)),
             fun _ => rfl, fun h => Option.noConfusion (Except.ok.inj h)⟩
    · rw [if_neg hw]
      rcases hlex : lex rest with ⟨tr, r⟩
      cases tr with
      | someTok t =>
        dsimp only
        have hne : (lex rest).1 ≠ .someTok .Eof := lex_fuel_ne_eof (rest.length + 1) rest
        rw [hlex] at hne
        refine ⟨fun h => ?_, fun _ => rfl, fun h => Option.noConfusion (Except.ok.inj h)⟩
        exact absurd (by simpa using h) (by simpa using hne)
      | errTok e2 =>
        dsimp only
        exact ⟨fun h => Except.noConfusion h, fun _ => rfl,
               fun h => Except.noConfusion h⟩
      | noTok =>
        dsimp only
        cases r with
        | cons c r2 =>
          dsimp only
          by_cases ha : 0 < au
          · rw [if_pos ha]
            exact ⟨fun h => Token.noConfusion (Option.some.inj (Except.ok.inj h)),
                   fun _ => rfl, fun h => Option.noConfusion (Except.ok.inj h)⟩
          · rw [if_neg ha]
            exact ⟨fun h => Except.noConfusion h, fun _ => rfl,
                   fun h => Except.noConfusion h⟩
        | nil =>
          dsimp only
          cases e with
          | true =>
            rw [if_pos rfl]
            exact ⟨fun h => Option.noConfusion (Except.ok.inj h), fun _ => rfl,
                   fun _ => rfl⟩
          | false =>
            rw [if_neg (by decide : ¬ (false = true))]
            exact ⟨fun _ => ⟨rfl, rfl, rfl⟩, fun h => absurd rfl h,
                   fun h => Option.noConfusion (Except.ok.inj h)⟩

/-- next_token preserves the lexer invariant. -/
theorem lexinv_next (lx : Lexer) (hinv : LexInv lx) :
    LexInv (Lexer.next_token lx).2 := by
  by_cases hres : (Lexer.next_token lx).1 = .ok (some Token.Eof)
  · intro _
    exact ((nt_master lx).1 hres).2.2
  · intro h2
    have hsame := (nt_master lx).2.1 hres
    have he : lx.emitted_eof = true := by rw [← hsame]; exact h2
    have hr := hinv he
    have hnone := nt_after_eof lx he hr
    rw [hnone]
    exact hr

/-- Any successful finite run of next_token calls from a state respecting
the invariant yields exactly one end marker, as its last token, if the flag
was clear, and no tokens at all if the end marker was already emitted. -/
theorem drive_count : ∀ n : Nat, ∀ lx : Lexer, ∀ l : List Token, LexInv lx →
    drive n lx = some (.ok l) →
    (lx.emitted_eof = false → l.count Token.Eof = 1 ∧ l.getLast? = some Token.Eof) ∧
    (lx.emitted_eof = true → l = []) := by
  intro n
  induction n with
  | zero =>
    intro lx l _ h
    exact absurd h (by simp [drive])
  | succ n IH =>
    intro lx l hinv h
    rcases hnt : Lexer.next_token lx with ⟨res, lx2⟩
    simp only [drive] at h
    rw [hnt] at h
    cases res with
    | error e2 =>
      dsimp only at h
      exact absurd h (by simp)
    | ok o =>
      cases o with
      | none =>
        dsimp only at h
        have he : lx.emitted_eof = true := (nt_master lx).2.2 (by rw [hnt])
        have hl : l = [] := by simpa using h.symm
        subst hl
        refine ⟨fun hf => ?_, fun _ => rfl⟩
        rw [hf] at he
        exact Bool.noConfusion he
      | some t =>
        dsimp only at h
        rcases hd : drive n lx2 with _ | res2
        · rw [hd] at h
          exact absurd h (by simp)
        · rcases res2 with e2 | ts
          · rw [hd] at h
            dsimp only at h
            exact absurd h (by simp)
          · rw [hd] at h
            dsimp only at h
            have hl : l = t :: ts := by simpa using h.symm
            subst hl
            by_cases ht : t = Token.Eof
            · subst ht
              obtain ⟨hfe, hee, hre⟩ := (nt_master lx).1 (by rw [hnt])
              rw [hnt] at hee hre
              have hinv2 : LexInv lx2 := fun _ => hre
              have hts := (IH lx2 ts hinv2 hd).2 hee
              subst hts
              refine ⟨fun _ => ⟨by decide, rfl⟩, fun htr => ?_⟩
              rw [htr] at hfe
              exact Bool.noConfusion hfe
            · have hneq : (Lexer.next_token lx).1 ≠ .ok (some Token.Eof) := by
                rw [hnt]
                intro hcon
                exact ht (by simpa using hcon)
              have hpres := (nt_master lx).2.1 hneq
              rw [hnt] at hpres
              have hinv2 : LexInv lx2 := by
                have hp := lexinv_next lx hinv
                rwa [hnt] at hp
              obtain ⟨ih1, ih2⟩ := IH lx2 ts hinv2 hd
              refine ⟨fun hf => ?_, fun htr => ?_⟩
              · have hf2 : lx2.emitted_eof = false := hf ▸ hpres
                obtain ⟨hc, hg⟩ := ih1 hf2
                refine ⟨?_, ?_⟩
                · rw [List.count_cons]
                  simp [hc, ht]
                · cases ts with
                  | nil => exact absurd hg (by simp)
                  | cons t2 ts2 =>
                    rw [List.getLast?_cons_cons]
                    exact hg
              · have hrest := hinv htr
                have hnone := nt_after_eof lx htr hrest
                rw [hnt] at hnone
                exact absurd hnone (by simp)

end Luax

/-- C5: the token stream contains exactly one end marker. Once the end
marker has been emitted and the input consumed, every further next_token
call returns no token and no error, leaving the state unchanged, in both
lexing modes; the emitted-end-marker invariant is preserved by every call;
producing the end marker moves the lexer to the emitted, exhausted state;
hence every terminating successful run of next_token calls from a fresh
lexer yields the end marker exactly once, as its last token. -/
theorem c5_single_end_marker :
    (∀ lx : Lexer, lx.emitted_eof = true → lx.rest = [] →
      Lexer.next_token lx = (.ok none, lx)) ∧
    (∀ lx : Lexer, LexInv lx → LexInv (Lexer.next_token lx).2) ∧
    (∀ lx : Lexer, (Lexer.next_token lx).1 = .ok (some Token.Eof) →
      (Lexer.next_token lx).2.emitted_eof = true ∧ (Lexer.next_token lx).2.rest = []) ∧
    (∀ (s : String) (n : Nat) (l : List Token), drive n (Lexer.new s) = some (.ok l) →
      l.count Token.Eof = 1 ∧ l.getLast? = some Token.Eof) := by
  refine ⟨nt_after_eof, lexinv_next, fun lx h => ((nt_master lx).1 h).2,
          fun s n l hd => ?_⟩
  have hinv : LexInv (Lexer.new s) := by
    intro h
    exact Bool.noConfusion h
  exact (drive_count n (Lexer.new s) l hinv hd).1 rfl

/-- C5, witness: the parts of the single-end-marker theorem instantiated at
concrete lexer states and at the input x, whose token stream is the
identifier followed by the end marker. -/
theorem c5_single_end_marker_witness :
    Lexer.next_token ⟨[], true, 0, 0, false⟩ = (.ok none, (⟨[], true, 0, 0, false⟩ : Lexer)) ∧
    LexInv (Lexer.next_token (Lexer.new "x")).2 ∧
    ((Lexer.next_token (⟨[], false, 0, 0, false⟩ : Lexer)).2.emitted_eof = true ∧
      (Lexer.next_token (⟨[], false, 0, 0, false⟩ : Lexer)).2.rest = []) ∧
    ([Token.Identifier ['x'], Token.Eof].count Token.Eof = 1 ∧
      [Token.Identifier ['x'], Token.Eof].getLast? = some Token.Eof) :=
  ⟨c5_single_end_marker.1 ⟨[], true, 0, 0, false⟩ rfl rfl,
   c5_single_end_marker.2.1 (Lexer.new "x") (by intro h; exact Bool.noConfusion h),
   c5_single_end_marker.2.2.1 ⟨[], false, 0, 0, false⟩ (by decide),
   c5_single_end_marker.2.2.2 "x" 5 [Token.Identifier ['x'], Token.Eof] (by decide)⟩
